/-
Verification of the transaction linking and roll-up engine of the
insider-app repository.

The repository contains two implementations of the engine:
  * the current builder, src/rollup_builder.py (function build_rollups),
    used by main.py, and
  * the legacy builder, Old SEC Tool/amrita_full_history_rollup.py
    (function build_events_and_rollups).

Both are embedded below.  Python dictionaries become fixed-shape records
(structure Txn / structure ORow); float arithmetic is embedded in ℚ;
Python string comparison (code-point lexicographic) is embedded by
charsLe / charsLt on the character lists; `sorted` (a stable sort) is
embedded by List.insertionSort with a non-strict key relation, which is
stable in the same sense.

Python object identity: build_rollups tracks already-consumed sale rows
by id() in the set processed_sales and keeps positions in the id-keyed
dict original_order.  In the embedding every input record carries its
original position in the field idx (so id-keyed lookups become idx
lookups, exact as long as the input positions are distinct, which the
well-formedness hypothesis wf states), and rows created by the builder
itself (deepcopy fragments, roll-up rows) are marked fresh := true with
original_order lookups returning the default 9999 for them, exactly as
`original_order.get(id(x), 9999)` does.

The two Python membership tests that use dict equality rather than
identity (`row not in synthetic_rows` on line 268 and
`syn not in all_linked_sales` on line 282 of rollup_builder.py) are
embedded through the fresh flag and through the explicit residual field
of the link state: under the well-formedness hypothesis (every input row
has rowType "SOURCE" and eventId None, as transaction_parser emits) a
created SYNTHETIC row can never be dict-equal to an input row, and after
the event-id assignment of line 267 the linked fragment can never be
dict-equal to the residual fragment, so both tests coincide with the
embedded ones.
-/
import Mathlib

namespace Insider

/-! ## Python string order (code-point lexicographic), embedded executably -/

/-- Lexicographic less-or-equal on character lists by code point; this is
Python's string comparison restricted to the forms the engine compares
(ISO dates and plain labels). -/
def charsLe : List Char → List Char → Bool
  | [], _ => true
  | _ :: _, [] => false
  | a :: as, b :: bs =>
    if a.toNat < b.toNat then true
    else if b.toNat < a.toNat then false
    else charsLe as bs

/-- Lexicographic strictly-less on character lists by code point. -/
def charsLt : List Char → List Char → Bool
  | [], [] => false
  | [], _ :: _ => true
  | _ :: _, [] => false
  | a :: as, b :: bs =>
    if a.toNat < b.toNat then true
    else if b.toNat < a.toNat then false
    else charsLt as bs

/-- Python s <= t on strings. -/
def strLeB (a b : String) : Bool := charsLe a.data b.data

/-- Python s < t on strings. -/
def strLtB (a b : String) : Bool := charsLt a.data b.data

/-- Python min of two strings. -/
def minStr (a b : String) : String := if strLeB a b then a else b

/-- Python max of two strings. -/
def maxStr (a b : String) : String := if strLeB a b then b else a

/-- Python min over a nonempty list of strings (callers guard emptiness,
returning the stated default instead). -/
def minStrList (l : List String) (dflt : String) : String :=
  match l with
  | [] => dflt
  | a :: r => r.foldl minStr a

/-- Python max over a nonempty list of strings. -/
def maxStrList (l : List String) (dflt : String) : String :=
  match l with
  | [] => dflt
  | a :: r => r.foldl maxStr a

/-- accession.replace with the dash removed: str.replace removes every
occurrence of the single character, which is exactly a character filter. -/
def stripDashes (s : String) : String := String.mk (s.data.filter (fun c => c ≠ '-'))

/-- Python round(x, 2): round half to even at two decimal places
(the claims under verification do not depend on the value fields, but the
embedding keeps them). -/
def roundHalfEven (q : ℚ) : ℤ :=
  let f := ⌊q⌋
  let r := q - f
  if r < 1 / 2 then f
  else if r > 1 / 2 then f + 1
  else if f % 2 = 0 then f else f + 1

/-- round(x, 2) on the cent grid. -/
def round2 (q : ℚ) : ℚ := (roundHalfEven (q * 100) : ℚ) / 100

/-! ## Transaction record (the dict produced by transaction_parser.parse_filing) -/

/-- One transaction row.  Fields carry the dict keys of the source
(rollup_builder.py); idx is the original filing position used for the
id-keyed original_order dict, and fresh marks rows created by the
builder itself (split fragments and roll-up rows), whose original_order
lookup yields the default 9999. -/
structure Txn where
  idx : Option Nat := none
  fresh : Bool := false
  accessionNumber : String := ""
  linkRole : String := ""
  transactionShares : Option ℚ := none
  transactionPricePerShare : Option ℚ := none
  transactionAcquiredDisposedCode : String := ""
  transactionDate : String := ""
  transactionValue : Option ℚ := none
  signedShares : Option ℚ := none
  is10b5_1 : Bool := false
  label : String := ""
  secTable : String := ""
  rowType : String := "SOURCE"
  eventId : Option String := none
  aggregateType : Option String := none
  aggregateShares : Option ℚ := none
  aggregateValue : Option ℚ := none
  priceRangeMin : Option ℚ := none
  priceRangeMax : Option ℚ := none
  tradeDateStart : String := ""
  tradeDateEnd : String := ""
  exerciseSharesEst : Option ℚ := none
  exerciseSharesMethod : Option String := none
  soldNonTaxSum : Option ℚ := none
  matchDelta : Option ℚ := none
  matchStatus : Option String := none
  toleranceUsed : Option Bool := none
  hasTaxRows : Option Bool := none
  linkedTxnCount : Option Nat := none
  deriving DecidableEq, Inhabited

/-- abs(t.get('transactionShares') or 0). -/
def sharesAbs (t : Txn) : ℚ := |t.transactionShares.getD 0|

/-- original_order.get(id(x), 9999). -/
def orderKey (t : Txn) : Nat := if t.fresh then 9999 else t.idx.getD 9999

/-- Sort key relation of sorted(..., key=original_order.get): non-strict,
so that List.insertionSort is stable exactly like Python sorted. -/
def ordLe (a b : Txn) : Prop := orderKey a ≤ orderKey b

instance : DecidableRel ordLe := fun a b => inferInstanceAs (Decidable (orderKey a ≤ orderKey b))

instance : IsTotal Txn ordLe := ⟨fun a b => Nat.le_total (orderKey a) (orderKey b)⟩

instance : IsTrans Txn ordLe := ⟨fun _ _ _ => Nat.le_trans⟩

/-! ## Match status (rollup_builder._calculate_match_status) -/

/-- TOLERANCE_ABSOLUTE = 5 shares. -/
def TOLERANCE_ABSOLUTE : ℚ := 5

/-- TOLERANCE_PERCENT = 0.005; the float literal is embedded as the exact
rational it denotes in the spec. -/
def TOLERANCE_PERCENT : ℚ := 1 / 200

/-- Result triple of _calculate_match_status. -/
structure MatchResult where
  status : String
  delta : ℚ
  toleranceUsed : Bool
  deriving DecidableEq

/-- _calculate_match_status(exercise_est, sold_sum). -/
def calculateMatchStatus (exercise_est sold_sum : ℚ) : MatchResult :=
  let match_delta := sold_sum - exercise_est
  let max_total := max |exercise_est| |sold_sum|
  let tolerance_threshold :=
    if max_total > 0 then max TOLERANCE_ABSOLUTE (TOLERANCE_PERCENT * max_total) else 0
  if match_delta = 0 then ⟨"EXACT_MATCH", match_delta, false⟩
  else if |match_delta| ≤ tolerance_threshold then ⟨"WITHIN_TOLERANCE", match_delta, true⟩
  else ⟨"MISMATCH", match_delta, false⟩

/-! ## Greedy linking loop of build_rollups (lines 119-185) -/

/-- Label upgrade of a linked 10b5-1 planned sale (lines 138-139 and
161-162 of rollup_builder.py). -/
def upgradeLabel (t : Txn) : Txn :=
  if t.is10b5_1 && t.label == "10b5-1 Planned Sale" then
    { t with label := "10b5-1 Planned Sale (Derivative)" }
  else t

/-- A SYNTHETIC split fragment: deepcopy of the sale with shares replaced
by the fragment amount, signedShares by its negation, rowType SYNTHETIC,
and transactionValue recomputed when a price is present (lines 154-159
and 171-176). -/
def splitFragment (sale : Txn) (amt : ℚ) : Txn :=
  { sale with
    transactionShares := some amt
    signedShares := some (-amt)
    rowType := "SYNTHETIC"
    fresh := true
    transactionValue :=
      match sale.transactionPricePerShare with
      | some p => some (round2 (amt * p))
      | none => sale.transactionValue }

/-- State of the greedy linking loop: remaining needed amount, ids of
consumed sales (processed_sales), all_linked_sales, the residual
SYNTHETIC fragment if a split happened (the loop breaks right after a
split, so at most one exists), and total_sale_value. -/
structure LinkState where
  remaining : ℚ
  processed : List (Option Nat)
  linked : List Txn
  residual : Option Txn
  saleValue : ℚ

/-- The loop `for sale in sales_in_order` of build_rollups: stop when the
remaining amount is spent, skip zero-magnitude sales, link a sale in full
when it fits, otherwise split it into a linked and a residual fragment
and stop. -/
def linkSales (st : LinkState) : List Txn → LinkState
  | [] => st
  | sale :: rest =>
    if st.remaining ≤ 0 then st
    else if sharesAbs sale = 0 then linkSales st rest
    else if sharesAbs sale ≤ st.remaining then
      linkSales
        { remaining := st.remaining - sharesAbs sale
          processed := st.processed ++ [sale.idx]
          linked := st.linked ++ [upgradeLabel sale]
          residual := st.residual
          saleValue := st.saleValue +
            match sale.transactionPricePerShare with
            | some p => sharesAbs sale * p
            | none => 0 }
        rest
    else
      { remaining := 0
        processed := st.processed ++ [sale.idx]
        linked := st.linked ++ [upgradeLabel (splitFragment sale st.remaining)]
        residual := some (splitFragment sale (sharesAbs sale - st.remaining))
        saleValue := st.saleValue +
          match sale.transactionPricePerShare with
          | some p => st.remaining * p
          | none => 0 }

/-! ## build_rollups (rollup_builder.py lines 51-400).  The locals of the
Python function become named definitions, each a function of the input
list, so that the theorems below can speak about them directly; their
composition at the end is the function itself. -/

/-- (x or '').upper() == 'A' for the acquired/disposed code: uppercasing
a string and comparing with the single letter A holds exactly for the two
one-character strings a and A. -/
def acqDispIsA (s : String) : Bool := s == "A" || s == "a"

/-- Predicate of the method-A sum (lines 103-109): Table 1, acquisition
coded, and exercise link role. -/
def methodAFilter (t : Txn) : Bool :=
  t.secTable == "Table 1" && acqDispIsA t.transactionAcquiredDisposedCode
    && t.linkRole == "exercise"

/-- Tax bucket predicate (line 74). -/
def isTaxRole (t : Txn) : Bool :=
  t.linkRole == "tax-sale-issuer" || t.linkRole == "tax-sale-open"

/-- str(transactions[0].get('accessionNumber', '')). -/
def accessionOf (ts : List Txn) : String :=
  match ts with
  | [] => ""
  | t0 :: _ => t0.accessionNumber

/-- The exercise bucket (line 72). -/
def exercisesOf (ts : List Txn) : List Txn :=
  ts.filter (fun t => t.linkRole == "exercise")

/-- The sale-common bucket (line 73). -/
def salesCommonOf (ts : List Txn) : List Txn :=
  ts.filter (fun t => t.linkRole == "sale-common")

/-- The tax bucket (line 74). -/
def taxRowsOf (ts : List Txn) : List Txn := ts.filter isTaxRole

/-- The other bucket (line 75). -/
def otherRowsOf (ts : List Txn) : List Txn :=
  ts.filter (fun t => t.linkRole == "other")

/-- underlying_a, the method-A sum (lines 103-109). -/
def underlyingAOf (ts : List Txn) : ℚ :=
  ((ts.filter methodAFilter).map sharesAbs).sum

/-- (total_exercise_est, exercise_method) (lines 111-117). -/
def estPairOf (ts : List Txn) : ℚ × String :=
  if 0 < underlyingAOf ts then (underlyingAOf ts, "UNDERLYING_A")
  else
    let estB := ((exercisesOf ts).map sharesAbs).sum
    (estB, if 0 < estB then "DERV_1to1" else "UNKNOWN")

/-- sales_in_order = sorted(sales_common, key=original_order.get) (line 121). -/
def salesInOrderOf (ts : List Txn) : List Txn :=
  List.insertionSort ordLe (salesCommonOf ts)

/-- The final state of the greedy loop (lines 120-185). -/
def linkStateOf (ts : List Txn) : LinkState :=
  linkSales ⟨(estPairOf ts).1, [], [], none, 0⟩ (salesInOrderOf ts)

/-- linked_sum_shares (line 188). -/
def linkedSumOf (ts : List Txn) : ℚ :=
  (((linkStateOf ts).linked).map sharesAbs).sum

/-- The (status, delta, used) triple of lines 189-191. -/
def matchResultOf (ts : List Txn) : MatchResult :=
  calculateMatchStatus (estPairOf ts).1 (linkedSumOf ts)

/-- aggregate_type (line 194). -/
def aggregateTypeOf (ts : List Txn) : String :=
  if 0 < linkedSumOf ts then "Exercise - Sale" else "Exercise - Hold"

/-- all_dates (line 197). -/
def allDatesOf (ts : List Txn) : List String :=
  ((exercisesOf ts ++ (linkStateOf ts).linked).map
    (fun t => t.transactionDate)).filter (fun d => d ≠ "")

/-- all_prices (lines 198-199). -/
def allPricesOf (ts : List Txn) : List ℚ :=
  (exercisesOf ts ++ (linkStateOf ts).linked).filterMap
    (fun t => t.transactionPricePerShare)

/-- Event id of the exercise roll-up (line 210). -/
def eventIdExerciseOf (ts : List Txn) : String :=
  stripDashes (accessionOf ts) ++ "-EXERCISE-01"

/-- Event id of the automatic-disposition roll-up (line 287). -/
def eventIdAutoOf (ts : List Txn) : String :=
  stripDashes (accessionOf ts) ++ "-AUTODISP-01"

/-- The Exercise ROLLUP row (lines 213-259). -/
def exerciseRollupOf (ts : List Txn) : Txn :=
  { idx := none
    fresh := true
    accessionNumber := accessionOf ts
    rowType := "ROLLUP"
    eventId := some (eventIdExerciseOf ts)
    aggregateType := some (aggregateTypeOf ts)
    aggregateShares := some (if linkedSumOf ts ≠ 0 then -|linkedSumOf ts| else 0)
    aggregateValue := if linkedSumOf ts ≠ 0 then some (linkStateOf ts).saleValue else none
    priceRangeMin :=
      match allPricesOf ts with | [] => none | a :: r => some (r.foldl min a)
    priceRangeMax :=
      match allPricesOf ts with | [] => none | a :: r => some (r.foldl max a)
    tradeDateStart := minStrList (allDatesOf ts) ""
    tradeDateEnd := maxStrList (allDatesOf ts) ""
    exerciseSharesEst := some (estPairOf ts).1
    exerciseSharesMethod := some (estPairOf ts).2
    soldNonTaxSum := some (linkedSumOf ts)
    matchDelta := some (matchResultOf ts).delta
    matchStatus := some (matchResultOf ts).status
    toleranceUsed := some (matchResultOf ts).toleranceUsed
    hasTaxRows := some (!(taxRowsOf ts).isEmpty)
    linkedTxnCount := some ((exercisesOf ts).length + (linkStateOf ts).linked.length)
    transactionDate :=
      if minStrList (allDatesOf ts) "" ≠ maxStrList (allDatesOf ts) "" then
        minStrList (allDatesOf ts) "" ++ " - " ++ maxStrList (allDatesOf ts) ""
      else minStrList (allDatesOf ts) ""
    transactionShares := some (if linkedSumOf ts ≠ 0 then -|linkedSumOf ts| else 0)
    transactionPricePerShare := none
    transactionAcquiredDisposedCode := "D"
    transactionValue := if linkedSumOf ts ≠ 0 then some (linkStateOf ts).saleValue else none
    signedShares := some (if linkedSumOf ts ≠ 0 then -|linkedSumOf ts| else 0)
    is10b5_1 := (linkStateOf ts).linked.any (fun s => s.is10b5_1)
    label := aggregateTypeOf ts
    linkRole := ""
    secTable := "Table 1" }

/-- The exercise SOURCE rows after event-id assignment (lines 262-264). -/
def exerciseRows2Of (ts : List Txn) : List Txn :=
  (exercisesOf ts).map
    (fun r => { r with eventId := some (eventIdExerciseOf ts), rowType := "SOURCE" })

/-- all_linked_sales after event-id assignment (lines 266-269); the
membership test against synthetic_rows is the fresh flag, see header. -/
def linked2Of (ts : List Txn) : List Txn :=
  (linkStateOf ts).linked.map (fun r =>
    if r.fresh then { r with eventId := some (eventIdExerciseOf ts) }
    else { r with eventId := some (eventIdExerciseOf ts), rowType := "SOURCE" })

/-- unlinked_sales (lines 272-283): unconsumed originals marked SOURCE,
then the residual SYNTHETIC fragment. -/
def unlinkedSalesOf (ts : List Txn) : List Txn :=
  ((salesCommonOf ts).filter
      (fun s => !((linkStateOf ts).processed.contains s.idx))).map
    (fun s => { s with rowType := "SOURCE" })
  ++ (match (linkStateOf ts).residual with | some r => [r] | none => [])

/-- unlinked_sum_shares (line 290). -/
def unlinkedSumOf (ts : List Txn) : ℚ :=
  ((unlinkedSalesOf ts).map sharesAbs).sum

/-- unlinked_value_sum (lines 291-295). -/
def unlinkedValueOf (ts : List Txn) : ℚ :=
  (((unlinkedSalesOf ts).filter
      (fun s => s.transactionPricePerShare ≠ none)).map
    (fun s => sharesAbs s * s.transactionPricePerShare.getD 0)).sum

/-- unlinked_dates (line 298). -/
def unlinkedDatesOf (ts : List Txn) : List String :=
  ((unlinkedSalesOf ts).map (fun s => s.transactionDate)).filter (fun d => d ≠ "")

/-- unlinked_prices (lines 296-297). -/
def unlinkedPricesOf (ts : List Txn) : List ℚ :=
  (unlinkedSalesOf ts).filterMap (fun s => s.transactionPricePerShare)

/-- The Automatic Disposition ROLLUP row (lines 300-346). -/
def autoRollupOf (ts : List Txn) : Txn :=
  { idx := none
    fresh := true
    accessionNumber := accessionOf ts
    rowType := "ROLLUP"
    eventId := some (eventIdAutoOf ts)
    aggregateType := some "Automatic Disposition"
    aggregateShares := some (-|unlinkedSumOf ts|)
    aggregateValue := if 0 < unlinkedValueOf ts then some (unlinkedValueOf ts) else none
    priceRangeMin :=
      match unlinkedPricesOf ts with | [] => none | a :: r => some (r.foldl min a)
    priceRangeMax :=
      match unlinkedPricesOf ts with | [] => none | a :: r => some (r.foldl max a)
    tradeDateStart := minStrList (unlinkedDatesOf ts) ""
    tradeDateEnd := maxStrList (unlinkedDatesOf ts) ""
    exerciseSharesEst := none
    exerciseSharesMethod := none
    soldNonTaxSum := some (unlinkedSumOf ts)
    matchDelta := none
    matchStatus := none
    toleranceUsed := none
    hasTaxRows := some false
    linkedTxnCount := some (unlinkedSalesOf ts).length
    transactionDate :=
      if unlinkedDatesOf ts ≠ [] ∧
          minStrList (unlinkedDatesOf ts) "" ≠ maxStrList (unlinkedDatesOf ts) ""
      then minStrList (unlinkedDatesOf ts) "" ++ " - " ++ maxStrList (unlinkedDatesOf ts) ""
      else (match unlinkedDatesOf ts with | [] => "" | d :: _ => d)
    transactionShares := some (-|unlinkedSumOf ts|)
    transactionPricePerShare := none
    transactionAcquiredDisposedCode := "D"
    transactionValue := if 0 < unlinkedValueOf ts then some (unlinkedValueOf ts) else none
    signedShares := some (-|unlinkedSumOf ts|)
    is10b5_1 := (unlinkedSalesOf ts).any (fun s => s.is10b5_1)
    label := "Automatic Disposition"
    linkRole := ""
    secTable := "Table 1" }

/-- unlinked_sales after auto-disposition event-id assignment (lines
349-350, executed only when the bucket is nonempty, which is also when it
reaches the output). -/
def unlinked2Of (ts : List Txn) : List Txn :=
  (unlinkedSalesOf ts).map (fun r => { r with eventId := some (eventIdAutoOf ts) })

/-- Output section 2a: Table 2 exercises in filing order (lines 359-362). -/
def derivativeExercisesOf (ts : List Txn) : List Txn :=
  List.insertionSort ordLe ((exerciseRows2Of ts).filter (fun r => r.secTable == "Table 2"))

/-- Output section 2b: Table 1 exercises in filing order (lines 363-366). -/
def nonDerivativeExercisesOf (ts : List Txn) : List Txn :=
  List.insertionSort ordLe ((exerciseRows2Of ts).filter (fun r => r.secTable == "Table 1"))

/-- Output section 3: linked sales in filing order (lines 371-374). -/
def linkedOrderedOf (ts : List Txn) : List Txn :=
  List.insertionSort ordLe (linked2Of ts)

/-- Output sections 4-5: the automatic-disposition roll-up and its rows
(lines 377-386). -/
def autoSectionOf (ts : List Txn) : List Txn :=
  if (unlinkedSalesOf ts).isEmpty then []
  else [autoRollupOf ts] ++ List.insertionSort ordLe (unlinked2Of ts)

/-- Output section 6: tax rows (lines 388-392). -/
def taxOrderedOf (ts : List Txn) : List Txn :=
  List.insertionSort ordLe ((taxRowsOf ts).map (fun r => { r with rowType := "SOURCE" }))

/-- Output section 7: other rows (lines 394-398). -/
def otherOrderedOf (ts : List Txn) : List Txn :=
  List.insertionSort ordLe ((otherRowsOf ts).map (fun r => { r with rowType := "SOURCE" }))

/-- build_rollups(transactions): the waterfall output (lines 51-400). -/
def buildRollups (transactions : List Txn) : List Txn :=
  match transactions with
  | [] => []
  | _ :: _ =>
    if (exercisesOf transactions).isEmpty then
      List.insertionSort ordLe
        (transactions.map (fun t => { t with rowType := "SOURCE" }))
    else
      [exerciseRollupOf transactions]
        ++ derivativeExercisesOf transactions
        ++ nonDerivativeExercisesOf transactions
        ++ linkedOrderedOf transactions
        ++ autoSectionOf transactions
        ++ taxOrderedOf transactions
        ++ otherOrderedOf transactions

/-! ## Legacy builder: Old SEC Tool/amrita_full_history_rollup.py
(build_events_and_rollups, lines 361-524).  Only the per-date-group
Matcher pass is needed by the claims: the exercise estimate, the
date-sorted sale pool, the greedy loop with its split, the match status
and the has-tax flag. -/

namespace OldTool

/-- One row dict of the legacy builder; field names follow its keys:
tradeDate is the Trade Date Range key, shares the signed Transacted
Shares, transactionType the Transaction Type label, plan the Rule 10b5-1
Plan flag, assigned the private already-linked marker. -/
structure ORow where
  oidx : Nat := 0
  linkRole : String := ""
  tradeDate : String := ""
  shares : Option ℚ := none
  price : Option ℚ := none
  value : Option ℚ := none
  transactionType : String := ""
  plan : Bool := false
  isDerivative : Bool := false
  acqDisp : String := ""
  assigned : Bool := false
  deriving DecidableEq, Inhabited

/-- TOL_ABS = 5 shares (line 90). -/
def TOL_ABS : ℚ := 5

/-- TOL_PCT = 0.005 (line 91). -/
def TOL_PCT : ℚ := 1 / 200

/-- abs(r.get('Transacted Shares') or 0); the estimate on line 392 uses a
bare abs without the fallback, which only differs on rows with a missing
share count, embedded as 0 in both places. -/
def oAbs (r : ORow) : ℚ := |r.shares.getD 0|

/-- Label upgrade of the legacy builder (lines 429-433 and 460-464). -/
def oldUpgrade (r : ORow) : ORow :=
  if r.plan && r.transactionType == "10b Planned Sale - Common stock" then
    { r with transactionType := "10b Planned Sale - Derivative" }
  else r

/-- Method A of the exercise estimate: non-derivative, acquisition-coded,
dated on the exercise date (lines 391-397). -/
def underlyingA (rows : List ORow) (exDate : String) : ℚ :=
  ((rows.filter (fun r =>
    !r.isDerivative && Insider.acqDispIsA r.acqDisp && r.tradeDate == exDate)).map oAbs).sum

/-- Exercise estimate and method for one date group (lines 390-402). -/
def oldEstimate (rows exRows : List ORow) (exDate : String) : ℚ × String :=
  let uA := underlyingA rows exDate
  if uA > 0 then (uA, "UNDERLYING_A")
  else
    let e := (exRows.map oAbs).sum
    (e, if e > 0 then "DERV_1to1" else "UNKNOWN")

/-- Date key relation of sorted(sales_common, key=Trade Date Range). -/
def dateLe (a b : ORow) : Prop := Insider.strLeB a.tradeDate b.tradeDate = true

instance : DecidableRel dateLe := fun a b =>
  inferInstanceAs (Decidable (Insider.strLeB a.tradeDate b.tradeDate = true))

instance : IsTotal ORow dateLe := by
  constructor
  intro a b
  show Insider.strLeB a.tradeDate b.tradeDate = true
    ∨ Insider.strLeB b.tradeDate a.tradeDate = true
  unfold Insider.strLeB
  generalize a.tradeDate.data = x
  generalize b.tradeDate.data = y
  induction x generalizing y with
  | nil => exact Or.inl rfl
  | cons c cs ih =>
    cases y with
    | nil => exact Or.inr rfl
    | cons d ds =>
      by_cases h1 : c.toNat < d.toNat
      · left
        simp [Insider.charsLe, h1]
      · by_cases h21 : d.toNat < c.toNat
        · right
          simp [Insider.charsLe, h21]
        · rcases ih ds with h | h
          · left
            simp [Insider.charsLe, h1, h21, h]
          · right
            simp [Insider.charsLe, h1, h21, h]

instance : IsTrans ORow dateLe := by
  constructor
  intro a b c hab hbc
  show Insider.strLeB a.tradeDate c.tradeDate = true
  have hab' : Insider.charsLe a.tradeDate.data b.tradeDate.data = true := hab
  have hbc' : Insider.charsLe b.tradeDate.data c.tradeDate.data = true := hbc
  unfold Insider.strLeB
  generalize hxg : a.tradeDate.data = x at hab'
  generalize hyg : b.tradeDate.data = y at hab' hbc'
  generalize hzg : c.tradeDate.data = z at hbc'
  clear hxg hyg hzg hab hbc
  induction x generalizing y z with
  | nil => rfl
  | cons u us ih =>
    cases y with
    | nil => simp [Insider.charsLe] at hab'
    | cons v vs =>
      cases z with
      | nil => simp [Insider.charsLe] at hbc'
      | cons w ws =>
        by_cases huv : u.toNat < v.toNat
        · by_cases hvw : v.toNat < w.toNat
          · simp [Insider.charsLe, Nat.lt_trans huv hvw]
          · by_cases hwv : w.toNat < v.toNat
            · simp [Insider.charsLe, hvw, hwv] at hbc'
            · have huw : u.toNat < w.toNat := by omega
              simp [Insider.charsLe, huw]
        · by_cases hvu : v.toNat < u.toNat
          · simp [Insider.charsLe, huv, hvu] at hab'
          · have hab2 : Insider.charsLe us vs = true := by
              simpa [Insider.charsLe, huv, hvu] using hab'
            by_cases hvw : v.toNat < w.toNat
            · have huw : u.toNat < w.toNat := by omega
              simp [Insider.charsLe, huw]
            · by_cases hwv : w.toNat < v.toNat
              · simp [Insider.charsLe, hvw, hwv] at hbc'
              · have hbc2 : Insider.charsLe vs ws = true := by
                  simpa [Insider.charsLe, hvw, hwv] using hbc'
                have huw : ¬ u.toNat < w.toNat := by omega
                have hwu : ¬ w.toNat < u.toNat := by omega
                simp [Insider.charsLe, huw, hwu]
                exact ih vs hab2 ws hbc2

/-- The global date-sorted sale-common pool (line 383). -/
def oldSalesPool (rows : List ORow) : List ORow :=
  List.insertionSort dateLe (rows.filter (fun r => r.linkRole == "sale-common"))

/-- One greedy pass of the legacy matcher over the pool (lines 409-483):
returns the pool after the pass (full links flagged assigned, a split
original mutated into its residual), the linked rows, and the sale value
sum.  Skips already assigned rows, rows dated before the exercise date,
zero-magnitude rows, and everything once the remaining amount is spent
(a continue in the source, not a break). -/
def oldLinkSales (exDate : String) (remaining : ℚ) : List ORow → List ORow × List ORow × ℚ
  | [] => ([], [], 0)
  | s :: rest =>
    if s.assigned then
      let t := oldLinkSales exDate remaining rest
      (s :: t.1, t.2.1, t.2.2)
    else if Insider.strLtB s.tradeDate exDate then
      let t := oldLinkSales exDate remaining rest
      (s :: t.1, t.2.1, t.2.2)
    else if oAbs s = 0 then
      let t := oldLinkSales exDate remaining rest
      (s :: t.1, t.2.1, t.2.2)
    else if remaining ≤ 0 then
      let t := oldLinkSales exDate remaining rest
      (s :: t.1, t.2.1, t.2.2)
    else if oAbs s ≤ remaining then
      let s2 := oldUpgrade { s with assigned := true }
      let t := oldLinkSales exDate (remaining - oAbs s) rest
      (s2 :: t.1, s2 :: t.2.1,
        (match s.price with | some pr => oAbs s * pr | none => 0) + t.2.2)
    else
      let linkedNeeded := remaining
      let residualAbs := oAbs s - remaining
      let sLink := oldUpgrade
        { s with
          shares := some (-linkedNeeded)
          assigned := true
          value := match s.price with
            | some pr => some (linkedNeeded * pr)
            | none => s.value }
      let sRes :=
        { s with
          shares := some (-residualAbs)
          value := match s.price with
            | some pr => some (residualAbs * pr)
            | none => s.value }
      (sRes :: rest, [sLink],
        match s.price with | some pr => linkedNeeded * pr | none => 0)

/-- Match status of the legacy builder (lines 489-497), an inline copy of
the same formula as _calculate_match_status. -/
def oldMatchStatus (exEst linkedSum : ℚ) : String × ℚ × Bool :=
  let matchDelta := linkedSum - exEst
  let maxTotal := max |exEst| |linkedSum|
  let tolThresh := if maxTotal > 0 then max TOL_ABS (TOL_PCT * maxTotal) else 0
  if matchDelta = 0 then ("EXACT_MATCH", matchDelta, false)
  else if |matchDelta| ≤ tolThresh then ("WITHIN_TOLERANCE", matchDelta, true)
  else ("MISMATCH", matchDelta, false)

/-- has_tax of the legacy builder (line 519): some tax row dated on or
after the exercise date. -/
def oldHasTax (taxRows : List ORow) (exDate : String) : Bool :=
  taxRows.any (fun tr => Insider.strLeB exDate tr.tradeDate)

end OldTool

/-! ## Well-formedness of parser output, and the threshold formula -/

/-- The records handed to build_rollups by transaction_parser all carry
rowType SOURCE and eventId None and are original rows (not builder
copies). -/
def cleanRow (t : Txn) : Bool :=
  !t.fresh && t.rowType == "SOURCE" && t.eventId == none

/-- idx fields record consecutive original positions starting at n: this
is the id-keyed original_order dict made explicit. -/
def enumFromB : Nat → List Txn → Bool
  | _, [] => true
  | n, t :: r => t.idx == some n && enumFromB (n + 1) r

/-- Well-formed parser output: clean rows in filing-order positions. -/
def wfInput (ts : List Txn) : Bool := ts.all cleanRow && enumFromB 0 ts

/-- Every link role is one of the five produced by
classifier.get_link_role, and every secTable one of the two the parser
writes. -/
def roleOk (t : Txn) : Bool :=
  (t.linkRole == "exercise" || t.linkRole == "sale-common"
    || t.linkRole == "tax-sale-issuer" || t.linkRole == "tax-sale-open"
    || t.linkRole == "other")
  && (t.secTable == "Table 1" || t.secTable == "Table 2")

/-- All rows classified and tabled. -/
def wfRoles (ts : List Txn) : Bool := ts.all roleOk

/-- The tolerance threshold exactly as the spec states it:
max(ABS_TOLERANCE, PCT_TOLERANCE x max(|estimate|, |linked_sum|)), or 0
when both are zero. -/
def matchThreshold (e s : ℚ) : ℚ :=
  if 0 < max |e| |s| then max TOLERANCE_ABSOLUTE (TOLERANCE_PERCENT * max |e| |s|) else 0

/-! ## Concrete filings used by the per-claim counterexamples and
witnesses.  Fields not listed keep the parser defaults (rowType SOURCE,
eventId none, fresh false). -/

/-- C1 witness filing, exercise row: estimate 50 via the derivative
fallback. -/
def c1_wex : Txn :=
  { idx := some 0, linkRole := "exercise", secTable := "Table 2",
    transactionShares := some 50, transactionDate := "2024-06-10",
    accessionNumber := "0001-23" }

/-- C1 witness filing, sale row of 80 shares: split into 50 linked and 30
residual. -/
def c1_wsale : Txn :=
  { idx := some 1, linkRole := "sale-common", secTable := "Table 1",
    transactionShares := some 80,
    signedShares := some (-80), transactionPricePerShare := some 10,
    transactionDate := "2024-06-10", accessionNumber := "0001-23", label := "Sale" }

/-- C2 counterexample filing, exercise row dated 2024-06-10. -/
def c2_ex : Txn :=
  { idx := some 0, linkRole := "exercise", secTable := "Table 2",
    transactionShares := some 100, transactionDate := "2024-06-10",
    accessionNumber := "0001-23" }

/-- C2 counterexample filing, sale row dated 2024-01-05, before the
exercise date. -/
def c2_sale : Txn :=
  { idx := some 1, linkRole := "sale-common", transactionShares := some 40,
    signedShares := some (-40), transactionDate := "2024-01-05",
    accessionNumber := "0001-23", label := "Sale" }

/-- C2 legacy-matcher pool row for the witness: unassigned sale dated on
the exercise date. -/
def c2_orow : OldTool.ORow :=
  { oidx := 1, linkRole := "sale-common", tradeDate := "2024-06-10",
    shares := some (-40), transactionType := "Sale" }

/-- C3 counterexample filing, derivative exercise of 10 shares. -/
def c3_ex : Txn :=
  { idx := some 0, linkRole := "exercise", secTable := "Table 2",
    transactionShares := some 10, transactionDate := "2024-06-10",
    accessionNumber := "0001-23" }

/-- C3 counterexample filing, non-derivative acquisition-coded row of 100
shares dated on the exercise date but with link role other. -/
def c3_acq : Txn :=
  { idx := some 1, linkRole := "other", secTable := "Table 1",
    transactionAcquiredDisposedCode := "A", transactionShares := some 100,
    transactionDate := "2024-06-10", accessionNumber := "0001-23" }

/-- C3 legacy rows for the witness: a non-derivative acquisition on the
exercise date. -/
def c3_orow : OldTool.ORow :=
  { oidx := 0, linkRole := "other", tradeDate := "2024-06-10",
    shares := some 100, acqDisp := "A" }

/-- C4 counterexample filing, first exercise date group (2024-01-10). -/
def c4_ex1 : Txn :=
  { idx := some 0, linkRole := "exercise", secTable := "Table 2",
    transactionShares := some 10, transactionDate := "2024-01-10",
    accessionNumber := "0001-23-000045" }

/-- C4 counterexample filing, second exercise date group (2024-03-15). -/
def c4_ex2 : Txn :=
  { idx := some 1, linkRole := "exercise", secTable := "Table 2",
    transactionShares := some 20, transactionDate := "2024-03-15",
    accessionNumber := "0001-23-000045" }

/-- C6 counterexample filing, exercise row dated 2024-06-01. -/
def c6_ex : Txn :=
  { idx := some 0, linkRole := "exercise", secTable := "Table 2",
    transactionShares := some 10, transactionDate := "2024-06-01",
    accessionNumber := "0001-23" }

/-- C6 counterexample filing, tax-role row dated 2024-01-01, strictly
before the exercise date. -/
def c6_tax : Txn :=
  { idx := some 1, linkRole := "tax-sale-issuer", transactionShares := some 5,
    transactionDate := "2024-01-01", accessionNumber := "0001-23" }

/-- C6 legacy tax row for the witness, dated before the exercise date. -/
def c6_otax : OldTool.ORow :=
  { oidx := 1, linkRole := "tax-sale-issuer", tradeDate := "2024-01-01",
    shares := some (-5) }

/-- C7 counterexample filing, exercise row with no share count: the
estimate is zero with method UNKNOWN. -/
def c7_ex : Txn :=
  { idx := some 0, linkRole := "exercise", secTable := "Table 2",
    transactionDate := "2024-06-10", accessionNumber := "0001-23" }

/-- C7 counterexample filing, nonzero sale of 200 shares. -/
def c7_sale : Txn :=
  { idx := some 1, linkRole := "sale-common", transactionShares := some 200,
    signedShares := some (-200), transactionPricePerShare := some 50,
    transactionDate := "2024-06-10", accessionNumber := "0001-23", label := "Sale" }

/-- C8 witness filing, exercise row giving an estimate of 50. -/
def c8_wex : Txn :=
  { idx := some 0, linkRole := "exercise", secTable := "Table 2",
    transactionShares := some 50, transactionDate := "2024-06-10",
    accessionNumber := "0001-23" }

/-- C8 witness filing, 10b5-1 planned sale of 80 shares that gets split:
the linked fragment is upgraded, the residual fragment keeps its label. -/
def c8_wsale : Txn :=
  { idx := some 1, linkRole := "sale-common", secTable := "Table 1",
    transactionShares := some 80,
    signedShares := some (-80), is10b5_1 := true, label := "10b5-1 Planned Sale",
    transactionPricePerShare := some 10, transactionDate := "2024-06-10",
    accessionNumber := "0001-23" }

/-- C9 witness filing: a single tax row and a single other row, no
exercise. -/
def c9_wtax : Txn :=
  { idx := some 0, linkRole := "tax-sale-issuer", transactionShares := some 5,
    transactionDate := "2024-02-02", accessionNumber := "0001-23" }

/-- C9 witness filing, second row. -/
def c9_wother : Txn :=
  { idx := some 1, linkRole := "other", transactionShares := some 7,
    transactionDate := "2024-02-03", accessionNumber := "0001-23" }

/-- C10 witness filing, one exercise and one sale so that both roll-up
rows exist. -/
def c10_wex : Txn :=
  { idx := some 0, linkRole := "exercise", secTable := "Table 2",
    transactionShares := some 50, transactionDate := "2024-06-10",
    accessionNumber := "0001-23" }

/-- C10 witness filing, sale of 80 shares (30 residual go to the
automatic-disposition roll-up). -/
def c10_wsale : Txn :=
  { idx := some 1, linkRole := "sale-common", secTable := "Table 1",
    transactionShares := some 80,
    signedShares := some (-80), transactionPricePerShare := some 10,
    transactionDate := "2024-06-10", accessionNumber := "0001-23", label := "Sale" }


/-! ## General lemmas about the embedded operations -/

theorem mem_insertionSort_iff {r : Txn → Txn → Prop} [DecidableRel r]
    {a : Txn} {l : List Txn} : a ∈ List.insertionSort r l ↔ a ∈ l :=
  (List.perm_insertionSort r l).mem_iff

theorem countP_insertionSort (p : Txn → Bool) (r : Txn → Txn → Prop) [DecidableRel r]
    (l : List Txn) : (List.insertionSort r l).countP p = l.countP p :=
  (List.perm_insertionSort r l).countP_eq p

theorem upgradeLabel_fields (t : Txn) :
    (upgradeLabel t).idx = t.idx ∧ (upgradeLabel t).fresh = t.fresh
    ∧ (upgradeLabel t).transactionShares = t.transactionShares
    ∧ (upgradeLabel t).signedShares = t.signedShares
    ∧ (upgradeLabel t).rowType = t.rowType
    ∧ (upgradeLabel t).eventId = t.eventId
    ∧ (upgradeLabel t).transactionDate = t.transactionDate
    ∧ (upgradeLabel t).linkRole = t.linkRole
    ∧ (upgradeLabel t).is10b5_1 = t.is10b5_1
    ∧ (upgradeLabel t).transactionPricePerShare = t.transactionPricePerShare := by
  unfold upgradeLabel
  split <;> simp

theorem sharesAbs_upgradeLabel (t : Txn) : sharesAbs (upgradeLabel t) = sharesAbs t := by
  unfold sharesAbs
  rw [(upgradeLabel_fields t).2.2.1]

theorem sharesAbs_nonneg (t : Txn) : 0 ≤ sharesAbs t := abs_nonneg _

theorem sum_sharesAbs_nonneg (l : List Txn) : 0 ≤ (l.map sharesAbs).sum := by
  induction l with
  | nil => simp
  | cons a r ih =>
    simp only [List.map_cons, List.sum_cons]
    exact add_nonneg (sharesAbs_nonneg a) ih

theorem splitFragment_fields (t : Txn) (a : ℚ) :
    (splitFragment t a).idx = t.idx ∧ (splitFragment t a).fresh = true
    ∧ (splitFragment t a).transactionShares = some a
    ∧ (splitFragment t a).signedShares = some (-a)
    ∧ (splitFragment t a).rowType = "SYNTHETIC"
    ∧ (splitFragment t a).label = t.label
    ∧ (splitFragment t a).eventId = t.eventId
    ∧ (splitFragment t a).is10b5_1 = t.is10b5_1
    ∧ (splitFragment t a).linkRole = t.linkRole := by
  unfold splitFragment
  simp

theorem enum_orderKey_ge {n : Nat} {l : List Txn} (he : enumFromB n l = true)
    (hf : ∀ t ∈ l, t.fresh = false) : ∀ t ∈ l, n ≤ orderKey t ∧ t.idx ≠ none := by
  induction l generalizing n with
  | nil => intro t ht; cases ht
  | cons a r ih =>
    simp only [enumFromB, Bool.and_eq_true, beq_iff_eq] at he
    intro t ht
    rcases List.mem_cons.mp ht with h | h
    · subst h
      have hfa : t.fresh = false := hf t (List.mem_cons_self _ _)
      constructor
      · simp [orderKey, hfa, he.1]
      · simp [he.1]
    · have := ih he.2 (fun x hx => hf x (List.mem_cons_of_mem _ hx)) t h
      exact ⟨Nat.le_of_succ_le this.1, this.2⟩

theorem enum_pairwise_lt {n : Nat} {l : List Txn} (he : enumFromB n l = true)
    (hf : ∀ t ∈ l, t.fresh = false) :
    List.Pairwise (fun a b : Txn => orderKey a < orderKey b) l := by
  induction l generalizing n with
  | nil => exact List.Pairwise.nil
  | cons a r ih =>
    simp only [enumFromB, Bool.and_eq_true, beq_iff_eq] at he
    refine List.Pairwise.cons ?_ (ih he.2 (fun x hx => hf x (List.mem_cons_of_mem _ hx)))
    intro b hb
    have hb' := enum_orderKey_ge he.2 (fun x hx => hf x (List.mem_cons_of_mem _ hx)) b hb
    have ha : orderKey a = n := by
      simp [orderKey, hf a (List.mem_cons_self _ _), he.1]
    omega

theorem enum_idx_eq_get_gen (l : List Txn) :
    ∀ n, enumFromB n l = true →
      ∀ i (h : i < l.length), (l.get ⟨i, h⟩).idx = some (n + i) := by
  induction l with
  | nil => intro n _ i h; cases h
  | cons a r ih =>
    intro n he i h
    simp only [enumFromB, Bool.and_eq_true, beq_iff_eq] at he
    cases i with
    | zero => simpa using he.1
    | succ j =>
      have := ih (n + 1) he.2 j (Nat.lt_of_succ_lt_succ h)
      simp only [List.get] at this ⊢
      rw [this]
      congr 1
      omega

theorem enum_idx_eq_get {l : List Txn} (he : enumFromB 0 l = true) :
    ∀ i (h : i < l.length), (l.get ⟨i, h⟩).idx = some i := by
  intro i h
  have := enum_idx_eq_get_gen l 0 he i h
  simpa using this

theorem countP_le_one_unique {l : List Txn} {p : Txn → Bool}
    (hc : l.countP p ≤ 1) {x y : Txn} (hx : x ∈ l) (hy : y ∈ l)
    (hpx : p x = true) (hpy : p y = true) : x = y := by
  induction l with
  | nil => cases hx
  | cons a r ih =>
    rw [List.countP_cons] at hc
    rcases List.mem_cons.mp hx with rfl | hx'
    · rcases List.mem_cons.mp hy with rfl | hy'
      · rfl
      · exfalso
        simp only [hpx, if_true] at hc
        have h0 : r.countP p = 0 := by omega
        have := (List.countP_eq_zero).mp h0 y hy'
        exact this hpy
    · rcases List.mem_cons.mp hy with rfl | hy'
      · exfalso
        simp only [hpy, if_true] at hc
        have h0 : r.countP p = 0 := by omega
        have := (List.countP_eq_zero).mp h0 x hx'
        exact this hpx
      · exact ih (by omega) hx' hy'

theorem filter_eq_single_of_countP {l : List Txn} {p : Txn → Bool} {x : Txn}
    (hc : l.countP p = 1) (hch : ∀ r ∈ l, p r = true → r = x) :
    l.filter p = [x] := by
  have hl : (l.filter p).length = 1 := by
    rw [← List.countP_eq_length_filter]; exact hc
  rcases List.length_eq_one.mp hl with ⟨y, hy⟩
  have hmem : y ∈ l.filter p := by rw [hy]; exact List.mem_singleton_self y
  have := List.mem_filter.mp hmem
  rw [hy, hch y this.1 this.2]

theorem filter_eq_nil_of_countP {l : List Txn} {p : Txn → Bool}
    (hc : l.countP p = 0) : l.filter p = [] := by
  have hl : (l.filter p).length = 0 := by
    rw [← List.countP_eq_length_filter]; exact hc
  exact List.length_eq_zero.mp hl

theorem pairwise_key_countP_le_one {l : List Txn}
    (hp : List.Pairwise (fun a b : Txn => orderKey a < orderKey b) l)
    (hfr : ∀ t ∈ l, t.fresh = false) (i : Nat) :
    l.countP (fun t => t.idx == some i) ≤ 1 := by
  induction l with
  | nil => simp
  | cons a r ih =>
    have hp' := List.pairwise_cons.mp hp
    rw [List.countP_cons]
    by_cases hpa : a.idx = some i
    · have hr0 : r.countP (fun t => t.idx == some i) = 0 := by
        rw [List.countP_eq_zero]
        intro b hb hpb
        have hkey : orderKey a < orderKey b := hp'.1 b hb
        have hfa : a.fresh = false := hfr a (List.mem_cons_self _ _)
        have hfb : b.fresh = false := hfr b (List.mem_cons_of_mem _ hb)
        have hbi : b.idx = some i := by simpa using hpb
        simp [orderKey, hfa, hfb, hpa, hbi] at hkey
      simp [hpa, hr0]
    · have := ih hp'.2 (fun t ht => hfr t (List.mem_cons_of_mem _ ht))
      simp only [beq_iff_eq, hpa, if_false]
      simpa using this

/-! ## Structure of the greedy linking loop -/

theorem linkSales_linked_decomp (pool : List Txn) (st : LinkState) :
    ∃ new : List Txn, (linkSales st pool).linked = st.linked ++ new
      ∧ List.Sublist (new.map (fun r => r.idx)) (pool.map (fun r => r.idx))
      ∧ ∀ r ∈ new, ∃ s ∈ pool, r.idx = s.idx ∧
          ((r = upgradeLabel s ∧ sharesAbs s ≠ 0)
            ∨ ∃ a, 0 < a ∧ a < sharesAbs s ∧ r = upgradeLabel (splitFragment s a)) := by
  induction pool generalizing st with
  | nil => exact ⟨[], by simp [linkSales], by simp, by simp⟩
  | cons sale rest ih =>
    by_cases h0 : st.remaining ≤ 0
    · refine ⟨[], ?_, by simp, by simp⟩
      simp [linkSales, h0]
    · by_cases hz : sharesAbs sale = 0
      · rcases ih st with ⟨new, h1, h2, h3⟩
        refine ⟨new, ?_, ?_, ?_⟩
        · simpa [linkSales, h0, hz] using h1
        · exact h2.trans (List.sublist_cons_self _ _)
        · intro r hr
          rcases h3 r hr with ⟨s, hs, h4, h5⟩
          exact ⟨s, List.mem_cons_of_mem _ hs, h4, h5⟩
      · by_cases hle : sharesAbs sale ≤ st.remaining
        · set st2 : LinkState :=
            { remaining := st.remaining - sharesAbs sale
              processed := st.processed ++ [sale.idx]
              linked := st.linked ++ [upgradeLabel sale]
              residual := st.residual
              saleValue := st.saleValue +
                match sale.transactionPricePerShare with
                | some p => sharesAbs sale * p
                | none => 0 } with hst2
          rcases ih st2 with ⟨new, h1, h2, h3⟩
          refine ⟨upgradeLabel sale :: new, ?_, ?_, ?_⟩
          · have hrun : linkSales st (sale :: rest) = linkSales st2 rest := by
              simp [linkSales, h0, hz, hle, hst2]
            rw [hrun, h1, hst2]
            simp
          · simp only [List.map_cons]
            have hidx : (upgradeLabel sale).idx = sale.idx := (upgradeLabel_fields sale).1
            rw [hidx]
            exact List.Sublist.cons₂ _ h2
          · intro r hr
            rcases List.mem_cons.mp hr with rfl | hr'
            · exact ⟨sale, List.mem_cons_self _ _, (upgradeLabel_fields sale).1, Or.inl ⟨rfl, hz⟩⟩
            · rcases h3 r hr' with ⟨s, hs, h4, h5⟩
              exact ⟨s, List.mem_cons_of_mem _ hs, h4, h5⟩
        · refine ⟨[upgradeLabel (splitFragment sale st.remaining)], ?_, ?_, ?_⟩
          · simp [linkSales, h0, hz, hle]
          · simp only [List.map_cons, List.map_nil]
            have : (upgradeLabel (splitFragment sale st.remaining)).idx = sale.idx := by
              rw [(upgradeLabel_fields _).1, (splitFragment_fields sale _).1]
            rw [this]
            exact List.Sublist.cons₂ _ (List.nil_sublist _)
          · intro r hr
            rcases List.mem_singleton.mp hr with rfl
            refine ⟨sale, List.mem_cons_self _ _, ?_, Or.inr ⟨st.remaining, ?_, ?_, rfl⟩⟩
            · rw [(upgradeLabel_fields _).1, (splitFragment_fields sale _).1]
            · linarith
            · linarith

theorem contains_append_opt (l l' : List (Option Nat)) (a : Option Nat) :
    (l ++ l').contains a = (l.contains a || l'.contains a) := by
  induction l with
  | nil => simp
  | cons b r ih => simp [List.contains_cons, ih, Bool.or_assoc]

theorem contains_iff_mem_opt (l : List (Option Nat)) (a : Option Nat) :
    l.contains a = true ↔ a ∈ l := by
  induction l with
  | nil => simp
  | cons b r ih =>
    simp only [List.contains_cons, Bool.or_eq_true, beq_iff_eq, ih, List.mem_cons]

theorem linkSales_sum_inv (pool : List Txn) (st : LinkState) :
    (((linkSales st pool).linked.map sharesAbs).sum + (linkSales st pool).remaining)
      = ((st.linked.map sharesAbs).sum + st.remaining) := by
  induction pool generalizing st with
  | nil => simp [linkSales]
  | cons sale rest ih =>
    by_cases h0 : st.remaining ≤ 0
    · simp [linkSales, h0]
    · by_cases hz : sharesAbs sale = 0
      · rw [show linkSales st (sale :: rest) = linkSales st rest by
          simp [linkSales, h0, hz]]
        exact ih st
      · by_cases hle : sharesAbs sale ≤ st.remaining
        · rw [show linkSales st (sale :: rest) = linkSales
            { remaining := st.remaining - sharesAbs sale
              processed := st.processed ++ [sale.idx]
              linked := st.linked ++ [upgradeLabel sale]
              residual := st.residual
              saleValue := st.saleValue +
                match sale.transactionPricePerShare with
                | some p => sharesAbs sale * p
                | none => 0 } rest by simp [linkSales, h0, hz, hle]]
          rw [ih]
          simp only [List.map_append, List.sum_append, List.map_cons, List.map_nil,
            List.sum_cons, List.sum_nil, sharesAbs_upgradeLabel]
          ring
        · have hrun : linkSales st (sale :: rest) =
            { remaining := 0
              processed := st.processed ++ [sale.idx]
              linked := st.linked ++ [upgradeLabel (splitFragment sale st.remaining)]
              residual := some (splitFragment sale (sharesAbs sale - st.remaining))
              saleValue := st.saleValue +
                match sale.transactionPricePerShare with
                | some p => st.remaining * p
                | none => 0 } := by simp [linkSales, h0, hz, hle]
          rw [hrun]
          simp only [List.map_append, List.sum_append, List.map_cons, List.map_nil,
            List.sum_cons, List.sum_nil]
          rw [sharesAbs_upgradeLabel]
          have : sharesAbs (splitFragment sale st.remaining) = st.remaining := by
            unfold sharesAbs
            rw [(splitFragment_fields sale _).2.2.1]
            simp only [Option.getD_some]
            exact abs_of_pos (by linarith)
          rw [this]
          ring

theorem linkSales_remaining_nonneg (pool : List Txn) (st : LinkState)
    (h : 0 ≤ st.remaining) : 0 ≤ (linkSales st pool).remaining := by
  induction pool generalizing st with
  | nil => simpa [linkSales] using h
  | cons sale rest ih =>
    by_cases h0 : st.remaining ≤ 0
    · simpa [linkSales, h0] using h
    · by_cases hz : sharesAbs sale = 0
      · rw [show linkSales st (sale :: rest) = linkSales st rest by
          simp [linkSales, h0, hz]]
        exact ih st h
      · by_cases hle : sharesAbs sale ≤ st.remaining
        · rw [show linkSales st (sale :: rest) = linkSales
            { remaining := st.remaining - sharesAbs sale
              processed := st.processed ++ [sale.idx]
              linked := st.linked ++ [upgradeLabel sale]
              residual := st.residual
              saleValue := st.saleValue +
                match sale.transactionPricePerShare with
                | some p => sharesAbs sale * p
                | none => 0 } rest by simp [linkSales, h0, hz, hle]]
          refine ih _ ?_
          show (0:ℚ) ≤ st.remaining - sharesAbs sale
          linarith
        · simp [linkSales, h0, hz, hle]

theorem linkSales_idx_untouched (pool : List Txn) (st : LinkState) (i : Nat)
    (hpool : pool.countP (fun t => t.idx == some i) = 0) :
    (linkSales st pool).processed.contains (some i) = st.processed.contains (some i)
    ∧ (linkSales st pool).linked.countP (fun t => t.idx == some i)
        = st.linked.countP (fun t => t.idx == some i)
    ∧ ((∀ r, st.residual = some r → r.idx ≠ some i)
        → ∀ r, (linkSales st pool).residual = some r → r.idx ≠ some i) := by
  induction pool generalizing st with
  | nil => exact ⟨by simp [linkSales], by simp [linkSales], fun h => by simpa [linkSales] using h⟩
  | cons sale rest ih =>
    rw [List.countP_cons] at hpool
    have hsale : (sale.idx == some i) = false := by
      by_cases h : sale.idx = some i
      · simp [h] at hpool
      · simp [h]
    have hsale' : sale.idx ≠ some i := by simpa using hsale
    have hrest : rest.countP (fun t => t.idx == some i) = 0 := by
      rw [hsale] at hpool
      simpa using hpool
    have hcontsingle : ([sale.idx].contains (some i)) = false := by
      simp only [List.contains_cons, List.contains_nil, Bool.or_false, beq_iff_eq]
      by_contra hcon
      simp only [Bool.not_eq_false, beq_iff_eq] at hcon
      exact hsale' hcon.symm
    by_cases h0 : st.remaining ≤ 0
    · exact ⟨by simp [linkSales, h0], by simp [linkSales, h0],
        fun h => by simpa [linkSales, h0] using h⟩
    · by_cases hz : sharesAbs sale = 0
      · rw [show linkSales st (sale :: rest) = linkSales st rest by
          simp [linkSales, h0, hz]]
        exact ih st hrest
      · by_cases hle : sharesAbs sale ≤ st.remaining
        · set st2 : LinkState :=
            { remaining := st.remaining - sharesAbs sale
              processed := st.processed ++ [sale.idx]
              linked := st.linked ++ [upgradeLabel sale]
              residual := st.residual
              saleValue := st.saleValue +
                match sale.transactionPricePerShare with
                | some p => sharesAbs sale * p
                | none => 0 } with hst2
          rw [show linkSales st (sale :: rest) = linkSales st2 rest by
            simp [linkSales, h0, hz, hle, hst2]]
          rcases ih st2 hrest with ⟨ha, hb, hc⟩
          refine ⟨?_, ?_, ?_⟩
          · rw [ha, hst2]
            simp only [contains_append_opt, hcontsingle, Bool.or_false]
          · rw [hb, hst2]
            simp only [List.countP_append, List.countP_cons, List.countP_nil]
            have hu : ((upgradeLabel sale).idx == some i) = false := by
              rw [(upgradeLabel_fields sale).1]
              exact hsale
            simp [hu]
          · intro hres
            refine hc ?_
            rw [hst2]
            exact hres
        · have hrun : linkSales st (sale :: rest) =
            { remaining := 0
              processed := st.processed ++ [sale.idx]
              linked := st.linked ++ [upgradeLabel (splitFragment sale st.remaining)]
              residual := some (splitFragment sale (sharesAbs sale - st.remaining))
              saleValue := st.saleValue +
                match sale.transactionPricePerShare with
                | some p => st.remaining * p
                | none => 0 } := by simp [linkSales, h0, hz, hle]
          rw [hrun]
          refine ⟨?_, ?_, ?_⟩
          · simp only [contains_append_opt, hcontsingle, Bool.or_false]
          · rw [List.countP_append, List.countP_cons, List.countP_nil]
            have hu : ((upgradeLabel (splitFragment sale st.remaining)).idx == some i) = false := by
              rw [(upgradeLabel_fields _).1, (splitFragment_fields sale _).1]
              exact hsale
            simp [hu]
          · intro _ r hres
            simp only at hres
            have hr : r = splitFragment sale (sharesAbs sale - st.remaining) :=
              (Option.some.inj hres).symm
            rw [hr, (splitFragment_fields sale _).1]
            exact hsale'

/-- Per-input-record trichotomy of the greedy loop: a sale with original
position i is either left alone, fully linked (upgraded in place), or
split into the linked fragment (in the linked list) and the residual
fragment (in the residual slot, with the run ending at remaining zero). -/
theorem linkSales_idx_trichotomy (pool : List Txn) (st : LinkState) (i : Nat)
    (hpool : pool.countP (fun t => t.idx == some i) ≤ 1)
    (hp : st.processed.contains (some i) = false)
    (hl : st.linked.countP (fun t => t.idx == some i) = 0)
    (hr : ∀ r, st.residual = some r → r.idx ≠ some i) :
    ((linkSales st pool).processed.contains (some i) = false
        ∧ (linkSales st pool).linked.countP (fun t => t.idx == some i) = 0
        ∧ (∀ r, (linkSales st pool).residual = some r → r.idx ≠ some i))
    ∨ (∃ s ∈ pool, s.idx = some i ∧ sharesAbs s ≠ 0
        ∧ (linkSales st pool).processed.contains (some i) = true
        ∧ (linkSales st pool).linked.countP (fun t => t.idx == some i) = 1
        ∧ (∀ r ∈ (linkSales st pool).linked, r.idx = some i → r = upgradeLabel s)
        ∧ (∀ r, (linkSales st pool).residual = some r → r.idx ≠ some i))
    ∨ (∃ s ∈ pool, s.idx = some i ∧ ∃ a, 0 < a ∧ a < sharesAbs s
        ∧ (linkSales st pool).processed.contains (some i) = true
        ∧ (linkSales st pool).linked.countP (fun t => t.idx == some i) = 1
        ∧ (∀ r ∈ (linkSales st pool).linked, r.idx = some i →
            r = upgradeLabel (splitFragment s a))
        ∧ (linkSales st pool).residual = some (splitFragment s (sharesAbs s - a))
        ∧ (linkSales st pool).remaining = 0) := by
  induction pool generalizing st with
  | nil =>
    exact Or.inl ⟨by simpa [linkSales] using hp, by simpa [linkSales] using hl,
      fun r h => hr r (by simpa [linkSales] using h)⟩
  | cons sale rest ih =>
    have hrest_le : rest.countP (fun t => t.idx == some i) ≤ 1 := by
      rw [List.countP_cons] at hpool
      omega
    by_cases h0 : st.remaining ≤ 0
    · refine Or.inl ⟨?_, ?_, ?_⟩
      · simpa [linkSales, h0] using hp
      · simpa [linkSales, h0] using hl
      · intro r h
        exact hr r (by simpa [linkSales, h0] using h)
    · by_cases hz : sharesAbs sale = 0
      · rw [show linkSales st (sale :: rest) = linkSales st rest by
          simp [linkSales, h0, hz]]
        rcases ih st hrest_le hp hl hr with hA | hB | hC
        · exact Or.inl hA
        · rcases hB with ⟨s, hs, rest_of⟩
          exact Or.inr (Or.inl ⟨s, List.mem_cons_of_mem _ hs, rest_of⟩)
        · rcases hC with ⟨s, hs, rest_of⟩
          exact Or.inr (Or.inr ⟨s, List.mem_cons_of_mem _ hs, rest_of⟩)
      · by_cases hle : sharesAbs sale ≤ st.remaining
        · set st2 : LinkState :=
            { remaining := st.remaining - sharesAbs sale
              processed := st.processed ++ [sale.idx]
              linked := st.linked ++ [upgradeLabel sale]
              residual := st.residual
              saleValue := st.saleValue +
                match sale.transactionPricePerShare with
                | some p => sharesAbs sale * p
                | none => 0 } with hst2
          rw [show linkSales st (sale :: rest) = linkSales st2 rest by
            simp [linkSales, h0, hz, hle, hst2]]
          by_cases hsi : sale.idx = some i
          · -- sale is the record with position i and is fully linked
            have hrest0 : rest.countP (fun t => t.idx == some i) = 0 := by
              rw [List.countP_cons] at hpool
              have hbeq : (sale.idx == some i) = true := by simp [hsi]
              rw [hbeq] at hpool
              simp only [if_true] at hpool
              omega
            rcases linkSales_idx_untouched rest st2 i hrest0 with ⟨ha, hb, hc⟩
            rcases linkSales_linked_decomp rest st2 with ⟨new, hd, _, hf⟩
            refine Or.inr (Or.inl ⟨sale, List.mem_cons_self _ _, hsi, hz, ?_, ?_, ?_, ?_⟩)
            · rw [ha, hst2]
              show (st.processed ++ [sale.idx]).contains (some i) = true
              rw [contains_append_opt, hp]
              have h1 : ([sale.idx].contains (some i)) = true := by
                simp only [List.contains_cons, List.contains_nil, Bool.or_false, beq_iff_eq]
                exact hsi.symm
              rw [h1]
              rfl
            · rw [hb, hst2]
              simp only [List.countP_append, List.countP_cons, List.countP_nil]
              have : ((upgradeLabel sale).idx == some i) = true := by
                rw [(upgradeLabel_fields sale).1]
                simp [hsi]
              simp [hl, this]
            · intro r hrm hri
              rw [hd] at hrm
              rcases List.mem_append.mp hrm with hml | hmn
              · rw [hst2] at hml
                rcases List.mem_append.mp hml with hml' | hml''
                · exfalso
                  have := (List.countP_eq_zero).mp hl r hml'
                  simp [hri] at this
                · rcases List.mem_singleton.mp hml''
                  rfl
              · exfalso
                rcases hf r hmn with ⟨s, hsr, hsidx, _⟩
                have := (List.countP_eq_zero).mp hrest0 s hsr
                rw [hri] at hsidx
                simp [hsidx.symm] at this
            · refine hc ?_
              rw [hst2]
              exact hr
          · -- some other record is fully linked here
            have hp2 : st2.processed.contains (some i) = false := by
              rw [hst2]
              show (st.processed ++ [sale.idx]).contains (some i) = false
              have h1 : ([sale.idx].contains (some i)) = false := by
                simp only [List.contains_cons, List.contains_nil, Bool.or_false, beq_iff_eq]
                simpa using fun hcon => hsi hcon.symm
              rw [contains_append_opt, hp, h1]
              rfl
            have hl2 : st2.linked.countP (fun t => t.idx == some i) = 0 := by
              rw [hst2]
              simp only [List.countP_append, List.countP_cons, List.countP_nil]
              have : ((upgradeLabel sale).idx == some i) = false := by
                rw [(upgradeLabel_fields sale).1]
                simpa using hsi
              simp [hl, this]
            have hr2 : ∀ r, st2.residual = some r → r.idx ≠ some i := by
              rw [hst2]
              exact hr
            rcases ih st2 hrest_le hp2 hl2 hr2 with hA | hB | hC
            · exact Or.inl hA
            · rcases hB with ⟨s, hs, rest_of⟩
              exact Or.inr (Or.inl ⟨s, List.mem_cons_of_mem _ hs, rest_of⟩)
            · rcases hC with ⟨s, hs, rest_of⟩
              exact Or.inr (Or.inr ⟨s, List.mem_cons_of_mem _ hs, rest_of⟩)
        · -- split of sale, run ends here
          have hrun : linkSales st (sale :: rest) =
            { remaining := 0
              processed := st.processed ++ [sale.idx]
              linked := st.linked ++ [upgradeLabel (splitFragment sale st.remaining)]
              residual := some (splitFragment sale (sharesAbs sale - st.remaining))
              saleValue := st.saleValue +
                match sale.transactionPricePerShare with
                | some p => st.remaining * p
                | none => 0 } := by simp [linkSales, h0, hz, hle]
          rw [hrun]
          by_cases hsi : sale.idx = some i
          · refine Or.inr (Or.inr ⟨sale, List.mem_cons_self _ _, hsi, st.remaining,
              by linarith, by linarith, ?_, ?_, ?_, ?_, rfl⟩)
            · show (st.processed ++ [sale.idx]).contains (some i) = true
              rw [contains_append_opt, hp]
              have h1 : ([sale.idx].contains (some i)) = true := by
                simp only [List.contains_cons, List.contains_nil, Bool.or_false, beq_iff_eq]
                exact hsi.symm
              rw [h1]
              rfl
            · simp only [List.countP_append, List.countP_cons, List.countP_nil]
              have : ((upgradeLabel (splitFragment sale st.remaining)).idx == some i) = true := by
                rw [(upgradeLabel_fields _).1, (splitFragment_fields sale _).1]
                simp [hsi]
              simp [hl, this]
            · intro r hrm hri
              rcases List.mem_append.mp hrm with hml | hml'
              · exfalso
                have := (List.countP_eq_zero).mp hl r hml
                simp [hri] at this
              · rcases List.mem_singleton.mp hml'
                rfl
            · rfl
          · refine Or.inl ⟨?_, ?_, ?_⟩
            · show (st.processed ++ [sale.idx]).contains (some i) = false
              have h1 : ([sale.idx].contains (some i)) = false := by
                simp only [List.contains_cons, List.contains_nil, Bool.or_false, beq_iff_eq]
                simpa using fun hcon => hsi hcon.symm
              rw [contains_append_opt, hp, h1]
              rfl
            · simp only [List.countP_append, List.countP_cons, List.countP_nil]
              have : ((upgradeLabel (splitFragment sale st.remaining)).idx == some i) = false := by
                rw [(upgradeLabel_fields _).1, (splitFragment_fields sale _).1]
                simpa using hsi
              simp [hl, this]
            · intro r hres
              simp only at hres
              have hreq : r = splitFragment sale (sharesAbs sale - st.remaining) :=
                (Option.some.inj hres).symm
              rw [hreq, (splitFragment_fields sale _).1]
              exact hsi

/-! ## Claim theorems -/

/-- C5: for every pair (exercise_estimate, linked_shares_sum), with
delta = linked_shares_sum - exercise_estimate and threshold =
max(5, 0.005 x max(|estimate|, |linked_sum|)) (or 0 when both are zero),
the match status is EXACT_MATCH when delta = 0, WITHIN_TOLERANCE when
0 < |delta| <= threshold, and MISMATCH otherwise; the three cases are
exhaustive and mutually exclusive for every rational delta, and the
tolerance-used flag holds exactly in the WITHIN_TOLERANCE case.  The
legacy builder computes the identical triple. -/
theorem c5_match_status_partition (e s : ℚ) :
    (calculateMatchStatus e s).delta = s - e
    ∧ ((calculateMatchStatus e s).status = "EXACT_MATCH" ↔ s - e = 0)
    ∧ ((calculateMatchStatus e s).status = "WITHIN_TOLERANCE" ↔
        0 < |s - e| ∧ |s - e| ≤ matchThreshold e s)
    ∧ ((calculateMatchStatus e s).status = "MISMATCH" ↔ matchThreshold e s < |s - e|)
    ∧ ((calculateMatchStatus e s).toleranceUsed = true ↔
        (calculateMatchStatus e s).status = "WITHIN_TOLERANCE")
    ∧ (s - e = 0 ∨ (0 < |s - e| ∧ |s - e| ≤ matchThreshold e s)
        ∨ matchThreshold e s < |s - e|)
    ∧ ¬ (s - e = 0 ∧ (0 < |s - e| ∧ |s - e| ≤ matchThreshold e s))
    ∧ ¬ (s - e = 0 ∧ matchThreshold e s < |s - e|)
    ∧ ¬ ((0 < |s - e| ∧ |s - e| ≤ matchThreshold e s) ∧ matchThreshold e s < |s - e|)
    ∧ OldTool.oldMatchStatus e s =
        ((calculateMatchStatus e s).status, (calculateMatchStatus e s).delta,
          (calculateMatchStatus e s).toleranceUsed) := by
  have hthr : 0 ≤ matchThreshold e s := by
    unfold matchThreshold
    split
    · refine le_trans ?_ (le_max_left _ _)
      norm_num [TOLERANCE_ABSOLUTE]
    · exact le_refl 0
  have hceq : calculateMatchStatus e s =
      (if s - e = 0 then (⟨"EXACT_MATCH", s - e, false⟩ : MatchResult)
       else if |s - e| ≤ matchThreshold e s then ⟨"WITHIN_TOLERANCE", s - e, true⟩
       else ⟨"MISMATCH", s - e, false⟩) := by
    unfold calculateMatchStatus matchThreshold
    rfl
  have hoeq : OldTool.oldMatchStatus e s =
      (if s - e = 0 then (("EXACT_MATCH", s - e, false) : String × ℚ × Bool)
       else if |s - e| ≤ matchThreshold e s then ("WITHIN_TOLERANCE", s - e, true)
       else ("MISMATCH", s - e, false)) := by
    unfold OldTool.oldMatchStatus matchThreshold OldTool.TOL_ABS OldTool.TOL_PCT
      TOLERANCE_ABSOLUTE TOLERANCE_PERCENT
    rfl
  by_cases h1 : s - e = 0
  · have hcalc : calculateMatchStatus e s = ⟨"EXACT_MATCH", s - e, false⟩ := by
      rw [hceq, if_pos h1]
    have hold : OldTool.oldMatchStatus e s = ("EXACT_MATCH", s - e, false) := by
      rw [hoeq, if_pos h1]
    refine ⟨by rw [hcalc], ?_, ?_, ?_, ?_, Or.inl h1, ?_, ?_, ?_, by rw [hold, hcalc]⟩
    · rw [hcalc]
      exact ⟨fun _ => h1, fun _ => rfl⟩
    · rw [hcalc]
      refine ⟨fun h => by simp at h, ?_⟩
      rintro ⟨hpos, -⟩
      rw [h1] at hpos
      simp at hpos
    · rw [hcalc]
      refine ⟨fun h => by simp at h, ?_⟩
      intro hlt
      rw [h1] at hlt
      simp at hlt
      linarith
    · rw [hcalc]
      exact ⟨fun h => by simp at h, fun h => by simp at h⟩
    · rintro ⟨-, hpos, -⟩
      rw [h1] at hpos
      simp at hpos
    · rintro ⟨-, hlt⟩
      rw [h1] at hlt
      simp at hlt
      linarith
    · rintro ⟨⟨-, hle⟩, hlt⟩
      linarith
  · have hpos : 0 < |s - e| := abs_pos.mpr h1
    by_cases h2 : |s - e| ≤ matchThreshold e s
    · have hcalc : calculateMatchStatus e s = ⟨"WITHIN_TOLERANCE", s - e, true⟩ := by
        rw [hceq, if_neg h1, if_pos h2]
      have hold : OldTool.oldMatchStatus e s = ("WITHIN_TOLERANCE", s - e, true) := by
        rw [hoeq, if_neg h1, if_pos h2]
      refine ⟨by rw [hcalc], ?_, ?_, ?_, ?_, Or.inr (Or.inl ⟨hpos, h2⟩), ?_, ?_, ?_,
        by rw [hold, hcalc]⟩
      · rw [hcalc]
        exact ⟨fun h => by simp at h, fun h => absurd h h1⟩
      · rw [hcalc]
        exact ⟨fun _ => ⟨hpos, h2⟩, fun _ => rfl⟩
      · rw [hcalc]
        refine ⟨fun h => by simp at h, ?_⟩
        intro hlt
        linarith
      · rw [hcalc]
        exact ⟨fun _ => rfl, fun _ => rfl⟩
      · rintro ⟨h, -⟩
        exact h1 h
      · rintro ⟨h, -⟩
        exact h1 h
      · rintro ⟨⟨-, hle⟩, hlt⟩
        linarith
    · push_neg at h2
      have hcalc : calculateMatchStatus e s = ⟨"MISMATCH", s - e, false⟩ := by
        rw [hceq, if_neg h1, if_neg (not_le.mpr h2)]
      have hold : OldTool.oldMatchStatus e s = ("MISMATCH", s - e, false) := by
        rw [hoeq, if_neg h1, if_neg (not_le.mpr h2)]
      refine ⟨by rw [hcalc], ?_, ?_, ?_, ?_, Or.inr (Or.inr h2), ?_, ?_, ?_,
        by rw [hold, hcalc]⟩
      · rw [hcalc]
        exact ⟨fun h => by simp at h, fun h => absurd h h1⟩
      · rw [hcalc]
        refine ⟨fun h => by simp at h, ?_⟩
        rintro ⟨-, hle⟩
        linarith
      · rw [hcalc]
        exact ⟨fun _ => h2, fun _ => rfl⟩
      · rw [hcalc]
        exact ⟨fun h => by simp at h, fun h => by simp at h⟩
      · rintro ⟨h, -⟩
        exact h1 h
      · rintro ⟨h, -⟩
        exact h1 h
      · rintro ⟨⟨-, hle⟩, hlt⟩
        linarith

theorem linkSales_residual_shape (pool : List Txn) (st : LinkState)
    (h : st.residual = none) :
    ∀ r0, (linkSales st pool).residual = some r0 →
      ∃ s ∈ pool, ∃ a, 0 < a ∧ r0 = splitFragment s a := by
  induction pool generalizing st with
  | nil =>
    intro r0 hr0
    rw [show (linkSales st []).residual = st.residual from rfl, h] at hr0
    cases hr0
  | cons sale rest ih =>
    intro r0 hr0
    by_cases h0 : st.remaining ≤ 0
    · rw [show linkSales st (sale :: rest) = st by simp [linkSales, h0], h] at hr0
      cases hr0
    · by_cases hz : sharesAbs sale = 0
      · rw [show linkSales st (sale :: rest) = linkSales st rest by
          simp [linkSales, h0, hz]] at hr0
        rcases ih st h r0 hr0 with ⟨s, hs, a, ha, heq⟩
        exact ⟨s, List.mem_cons_of_mem _ hs, a, ha, heq⟩
      · by_cases hle : sharesAbs sale ≤ st.remaining
        · set st2 : LinkState :=
            { remaining := st.remaining - sharesAbs sale
              processed := st.processed ++ [sale.idx]
              linked := st.linked ++ [upgradeLabel sale]
              residual := st.residual
              saleValue := st.saleValue +
                match sale.transactionPricePerShare with
                | some p => sharesAbs sale * p
                | none => 0 } with hst2
          rw [show linkSales st (sale :: rest) = linkSales st2 rest by
            simp [linkSales, h0, hz, hle, hst2]] at hr0
          have h2 : st2.residual = none := by rw [hst2]; exact h
          rcases ih st2 h2 r0 hr0 with ⟨s, hs, a, ha, heq⟩
          exact ⟨s, List.mem_cons_of_mem _ hs, a, ha, heq⟩
        · rw [show linkSales st (sale :: rest) =
            { remaining := 0
              processed := st.processed ++ [sale.idx]
              linked := st.linked ++ [upgradeLabel (splitFragment sale st.remaining)]
              residual := some (splitFragment sale (sharesAbs sale - st.remaining))
              saleValue := st.saleValue +
                match sale.transactionPricePerShare with
                | some p => st.remaining * p
                | none => 0 } by simp [linkSales, h0, hz, hle]] at hr0
          simp only at hr0
          refine ⟨sale, List.mem_cons_self _ _, sharesAbs sale - st.remaining, ?_, ?_⟩
          · push_neg at hle
            linarith
          · exact (Option.some.inj hr0).symm

theorem wfInput_parts {ts : List Txn} (h : wfInput ts = true) :
    ts.all cleanRow = true ∧ enumFromB 0 ts = true := by
  unfold wfInput at h
  simpa [Bool.and_eq_true] using h

theorem wfInput_clean {ts : List Txn} (h : wfInput ts = true) :
    ∀ t ∈ ts, t.fresh = false ∧ t.rowType = "SOURCE" ∧ t.eventId = none := by
  intro t ht
  have := (List.all_eq_true.mp (wfInput_parts h).1) t ht
  unfold cleanRow at this
  simp only [Bool.and_eq_true, Bool.not_eq_true', beq_iff_eq] at this
  exact ⟨this.1.1, this.1.2, this.2⟩

theorem wfInput_enum {ts : List Txn} (h : wfInput ts = true) : enumFromB 0 ts = true :=
  (wfInput_parts h).2

theorem wfInput_pairwise {ts : List Txn} (h : wfInput ts = true) :
    List.Pairwise (fun a b : Txn => orderKey a < orderKey b) ts :=
  enum_pairwise_lt (wfInput_enum h) (fun t ht => (wfInput_clean h t ht).1)

/-- C9: a filing with zero exercise-role records passes through: every
input record is returned once, unchanged except for being marked SOURCE,
in original filing order, with no event id assigned and zero ROLLUP rows
produced. -/
theorem c9_no_exercise_passthrough (ts : List Txn) (hwf : wfInput ts = true)
    (hnoex : ∀ t ∈ ts, t.linkRole ≠ "exercise") :
    buildRollups ts = ts.map (fun t => { t with rowType := "SOURCE" })
    ∧ (∀ r ∈ buildRollups ts, r.rowType = "SOURCE" ∧ r.eventId = none) := by
  have hmain : buildRollups ts = ts.map (fun t => { t with rowType := "SOURCE" }) := by
    cases ts with
    | nil => rfl
    | cons t0 rest =>
      have hempty : (exercisesOf (t0 :: rest)).isEmpty = true := by
        unfold exercisesOf
        rw [List.isEmpty_iff]
        rw [List.filter_eq_nil_iff]
        intro t ht
        simp only [beq_iff_eq]
        exact hnoex t ht
      have hred : buildRollups (t0 :: rest) =
          List.insertionSort ordLe ((t0 :: rest).map (fun t => { t with rowType := "SOURCE" })) := by
        unfold buildRollups
        rw [if_pos hempty]
      rw [hred]
      refine List.Sorted.insertionSort_eq ?_
      have hpw := wfInput_pairwise hwf
      have hmap : List.Pairwise (fun a b : Txn => orderKey a < orderKey b)
          ((t0 :: rest).map (fun t => { t with rowType := "SOURCE" })) := by
        rw [List.pairwise_map]
        exact hpw
      exact hmap.imp (fun hab => Nat.le_of_lt hab)
  refine ⟨hmain, ?_⟩
  intro r hr
  rw [hmain] at hr
  rcases List.mem_map.mp hr with ⟨t, ht, rfl⟩
  exact ⟨rfl, (wfInput_clean hwf t ht).2.2⟩

/-- C9 witness: a two-row filing with no exercise records passes through
unchanged apart from the SOURCE mark. -/
theorem c9_no_exercise_passthrough_witness :
    buildRollups [c9_wtax, c9_wother] =
      [{ c9_wtax with rowType := "SOURCE" }, { c9_wother with rowType := "SOURCE" }] := by
  have h := (c9_no_exercise_passthrough [c9_wtax, c9_wother] (by decide) (by decide)).1
  rw [h]
  rfl

theorem mem_salesInOrder_sub {ts : List Txn} {x : Txn} (h : x ∈ salesInOrderOf ts) :
    x ∈ ts ∧ x.linkRole = "sale-common" := by
  unfold salesInOrderOf at h
  have h2 := mem_insertionSort_iff.mp h
  unfold salesCommonOf at h2
  have h3 := List.mem_filter.mp h2
  exact ⟨h3.1, by simpa using h3.2⟩

theorem linkStateOf_linked_shape {ts : List Txn} (hwf : wfInput ts = true) :
    ∀ x ∈ (linkStateOf ts).linked,
      (x.fresh = true → x.rowType = "SYNTHETIC") ∧ (x.fresh = false → x.rowType = "SOURCE") := by
  intro x hx
  unfold linkStateOf at hx
  rcases linkSales_linked_decomp (salesInOrderOf ts) ⟨(estPairOf ts).1, [], [], none, 0⟩
    with ⟨new, hdec, _, hmem⟩
  rw [hdec] at hx
  simp only [List.nil_append] at hx
  rcases hmem x hx with ⟨s, hs, _, hcase | ⟨a, _, _, hfrag⟩⟩
  · rcases hcase with ⟨rfl, _⟩
    have hsts := mem_salesInOrder_sub hs
    have hclean := wfInput_clean hwf s hsts.1
    constructor
    · intro hf
      rw [(upgradeLabel_fields s).2.1] at hf
      rw [hf] at hclean
      cases hclean.1
    · intro _
      rw [(upgradeLabel_fields s).2.2.2.2.1]
      exact hclean.2.1
  · rw [hfrag]
    constructor
    · intro _
      rw [(upgradeLabel_fields _).2.2.2.2.1]
      exact (splitFragment_fields s a).2.2.2.2.1
    · intro hf
      rw [(upgradeLabel_fields _).2.1, (splitFragment_fields s a).2.1] at hf
      cases hf

theorem unlinkedSales_shape {ts : List Txn} :
    ∀ x ∈ unlinkedSalesOf ts,
      x.rowType = "SOURCE" ∨ (x.rowType = "SYNTHETIC" ∧ x.fresh = true) := by
  intro x hx
  unfold unlinkedSalesOf at hx
  rcases List.mem_append.mp hx with h1 | h2
  · rcases List.mem_map.mp h1 with ⟨s, _, rfl⟩
    exact Or.inl rfl
  · rcases hres : (linkStateOf ts).residual with - | r0
    · rw [hres] at h2
      cases h2
    · rw [hres] at h2
      rcases List.mem_singleton.mp h2 with rfl
      have := linkSales_residual_shape (salesInOrderOf ts)
        ⟨(estPairOf ts).1, [], [], none, 0⟩ rfl x hres
      rcases this with ⟨s, _, a, _, rfl⟩
      exact Or.inr ⟨(splitFragment_fields s a).2.2.2.2.1, (splitFragment_fields s a).2.1⟩

theorem mem_buildRollups_cases {ts : List Txn} {r : Txn}
    (hr : r ∈ buildRollups ts) (hex : (exercisesOf ts).isEmpty = false) :
    r = exerciseRollupOf ts
    ∨ r ∈ exerciseRows2Of ts
    ∨ r ∈ linked2Of ts
    ∨ (r = autoRollupOf ts ∨ r ∈ unlinked2Of ts)
    ∨ r ∈ (taxRowsOf ts).map (fun x => { x with rowType := "SOURCE" })
    ∨ r ∈ (otherRowsOf ts).map (fun x => { x with rowType := "SOURCE" }) := by
  cases ts with
  | nil => cases hr
  | cons t0 rest =>
    unfold buildRollups at hr
    rw [if_neg (by rw [hex]; exact Bool.false_ne_true)] at hr
    rcases List.mem_append.mp hr with h | hother
    rcases List.mem_append.mp h with h | htax
    rcases List.mem_append.mp h with h | hauto
    rcases List.mem_append.mp h with h | hlink
    rcases List.mem_append.mp h with h | hnond
    rcases List.mem_append.mp h with hroll | hder
    · exact Or.inl (List.mem_singleton.mp hroll)
    · refine Or.inr (Or.inl ?_)
      unfold derivativeExercisesOf at hder
      exact (List.mem_filter.mp (mem_insertionSort_iff.mp hder)).1
    · refine Or.inr (Or.inl ?_)
      unfold nonDerivativeExercisesOf at hnond
      exact (List.mem_filter.mp (mem_insertionSort_iff.mp hnond)).1
    · refine Or.inr (Or.inr (Or.inl ?_))
      unfold linkedOrderedOf at hlink
      exact mem_insertionSort_iff.mp hlink
    · unfold autoSectionOf at hauto
      by_cases hu : (unlinkedSalesOf (t0 :: rest)).isEmpty
      · rw [if_pos hu] at hauto
        cases hauto
      · rw [if_neg hu] at hauto
        rcases List.mem_append.mp hauto with h1 | h2
        · exact Or.inr (Or.inr (Or.inr (Or.inl (Or.inl (List.mem_singleton.mp h1)))))
        · exact Or.inr (Or.inr (Or.inr (Or.inl (Or.inr (mem_insertionSort_iff.mp h2)))))
    · refine Or.inr (Or.inr (Or.inr (Or.inr (Or.inl ?_))))
      unfold taxOrderedOf at htax
      exact mem_insertionSort_iff.mp htax
    · refine Or.inr (Or.inr (Or.inr (Or.inr (Or.inr ?_))))
      unfold otherOrderedOf at hother
      exact mem_insertionSort_iff.mp hother

/-- C10: every ROLLUP record the builder emits (the exercise roll-up and
the automatic-disposition roll-up) carries nonpositive aggregate shares,
transaction shares, and signed shares, and acquired/disposed code D:
roll-ups always represent dispositions. -/
theorem c10_rollups_are_dispositions (ts : List Txn) (hwf : wfInput ts = true) :
    ∀ r ∈ buildRollups ts, r.rowType = "ROLLUP" →
      (∀ q, r.aggregateShares = some q → q ≤ 0)
      ∧ (∀ q, r.transactionShares = some q → q ≤ 0)
      ∧ (∀ q, r.signedShares = some q → q ≤ 0)
      ∧ r.transactionAcquiredDisposedCode = "D" := by
  intro r hr hrt
  have hnonpos : ∀ x : ℚ, (if linkedSumOf ts ≠ 0 then -|linkedSumOf ts| else 0) = x → x ≤ 0 := by
    intro x hx
    rw [← hx]
    split
    · exact neg_nonpos.mpr (abs_nonneg _)
    · exact le_refl 0
  by_cases hex : (exercisesOf ts).isEmpty
  · cases ts with
    | nil => cases hr
    | cons t0 rest =>
      exfalso
      unfold buildRollups at hr
      rw [if_pos hex] at hr
      rcases List.mem_map.mp (mem_insertionSort_iff.mp hr) with ⟨t, _, rfl⟩
      exact absurd hrt (by simp)
  · rcases mem_buildRollups_cases hr (Bool.not_eq_true _ ▸ hex) with
      hroll | hexr | hlink | ⟨hauto | hunl⟩ | htax | hoth
    · subst hroll
      refine ⟨?_, ?_, ?_, rfl⟩
      · intro q hq
        exact hnonpos q (Option.some.inj hq)
      · intro q hq
        exact hnonpos q (Option.some.inj hq)
      · intro q hq
        exact hnonpos q (Option.some.inj hq)
    · exfalso
      unfold exerciseRows2Of at hexr
      rcases List.mem_map.mp hexr with ⟨x, _, rfl⟩
      exact absurd hrt (by simp)
    · exfalso
      unfold linked2Of at hlink
      rcases List.mem_map.mp hlink with ⟨x, hx, rfl⟩
      have hshape := linkStateOf_linked_shape hwf x hx
      by_cases hf : x.fresh
      · rw [if_pos hf] at hrt
        have : x.rowType = "SYNTHETIC" := hshape.1 hf
        simp [this] at hrt
      · rw [if_neg hf] at hrt
        simp at hrt
    · subst hauto
      refine ⟨?_, ?_, ?_, rfl⟩
      · intro q hq
        have := Option.some.inj hq
        rw [← this]
        exact neg_nonpos.mpr (abs_nonneg _)
      · intro q hq
        have := Option.some.inj hq
        rw [← this]
        exact neg_nonpos.mpr (abs_nonneg _)
      · intro q hq
        have := Option.some.inj hq
        rw [← this]
        exact neg_nonpos.mpr (abs_nonneg _)
    · exfalso
      unfold unlinked2Of at hunl
      rcases List.mem_map.mp hunl with ⟨x, hx, rfl⟩
      rcases unlinkedSales_shape x hx with hs | ⟨hs, -⟩
      · simp [hs] at hrt
      · simp [hs] at hrt
    · exfalso
      rcases List.mem_map.mp htax with ⟨x, _, rfl⟩
      exact absurd hrt (by simp)
    · exfalso
      rcases List.mem_map.mp hoth with ⟨x, _, rfl⟩
      exact absurd hrt (by simp)

set_option maxRecDepth 100000 in
set_option maxHeartbeats 1000000 in
/-- C10 witness: in the 50-share exercise, 80-share sale filing both
roll-up rows exist and the theorem applies to the exercise roll-up. -/
theorem c10_rollups_are_dispositions_witness :
    exerciseRollupOf [c10_wex, c10_wsale] ∈ buildRollups [c10_wex, c10_wsale]
    ∧ (exerciseRollupOf [c10_wex, c10_wsale]).transactionAcquiredDisposedCode = "D" :=
  ⟨by with_unfolding_all decide,
    (c10_rollups_are_dispositions [c10_wex, c10_wsale] (by decide)
      (exerciseRollupOf [c10_wex, c10_wsale]) (by with_unfolding_all decide)
      (by with_unfolding_all decide)).2.2.2⟩

theorem oAbs_sum_nonneg (l : List OldTool.ORow) : 0 ≤ (l.map OldTool.oAbs).sum := by
  induction l with
  | nil => simp
  | cons a r ih =>
    simp only [List.map_cons, List.sum_cons]
    exact add_nonneg (abs_nonneg _) ih

theorem underlyingA_nonneg (rows : List OldTool.ORow) (exDate : String) :
    0 ≤ OldTool.underlyingA rows exDate := oAbs_sum_nonneg _

theorem underlyingAOf_nonneg (ts : List Txn) : 0 ≤ underlyingAOf ts :=
  sum_sharesAbs_nonneg _

theorem buildRollups_head {ts : List Txn} (hts : ts ≠ [])
    (hex : (exercisesOf ts).isEmpty = false) :
    (buildRollups ts).head? = some (exerciseRollupOf ts) := by
  cases ts with
  | nil => exact absurd rfl hts
  | cons t0 rest =>
    unfold buildRollups
    rw [if_neg (by rw [hex]; exact Bool.false_ne_true)]
    rfl

/-- C3 counterexample: a filing with a derivative exercise of 10 shares
and a non-derivative acquisition-coded row of 100 shares dated on the
exercise date whose link role is other.  The claim's method-A sum (all
non-derivative acquisition-coded records dated on the exercise date) is
100 and positive, so the claim predicts estimate 100 with the
underlying-acquisition method; the builder instead reports estimate 10
with the derivative fallback, because its method-A sum also requires
link role exercise and ignores dates. -/
theorem c3_estimate_counterexample :
    ((([c3_ex, c3_acq].filter (fun t => t.secTable == "Table 1"
        && acqDispIsA t.transactionAcquiredDisposedCode
        && t.transactionDate == c3_ex.transactionDate)).map sharesAbs).sum = 100)
    ∧ (buildRollups [c3_ex, c3_acq]).head? = some (exerciseRollupOf [c3_ex, c3_acq])
    ∧ (exerciseRollupOf [c3_ex, c3_acq]).exerciseSharesEst = some 10
    ∧ (exerciseRollupOf [c3_ex, c3_acq]).exerciseSharesMethod = some "DERV_1to1"
    ∧ (10 : ℚ) ≠ 100 := by
  refine ⟨?_, ?_, ?_, ?_, ?_⟩ <;> with_unfolding_all decide

/-- C3 amended: the current builder computes the estimate in one combined
pass: method A sums the unsigned shares of non-derivative
acquisition-coded exercise-role records anywhere in the filing (no date
condition), used when positive; otherwise it falls back to the unsigned
share sum of the exercise-role records; the method is UNKNOWN exactly
when both sums are zero.  The per-date sum over all non-derivative
acquisition-coded records dated on the exercise date is the legacy
builder's rule, for which the same fallback and UNKNOWN
characterization hold. -/
theorem c3_estimate_amended (ts : List Txn) (hts : ts ≠ [])
    (hex : (exercisesOf ts).isEmpty = false) :
    (buildRollups ts).head? = some (exerciseRollupOf ts)
    ∧ (exerciseRollupOf ts).exerciseSharesEst = some (estPairOf ts).1
    ∧ (exerciseRollupOf ts).exerciseSharesMethod = some (estPairOf ts).2
    ∧ (estPairOf ts).1 =
        (if 0 < underlyingAOf ts then underlyingAOf ts
         else ((exercisesOf ts).map sharesAbs).sum)
    ∧ ((estPairOf ts).2 = "UNDERLYING_A" ↔ 0 < underlyingAOf ts)
    ∧ ((estPairOf ts).2 = "UNKNOWN" ↔
        underlyingAOf ts = 0 ∧ ((exercisesOf ts).map sharesAbs).sum = 0)
    ∧ (∀ (rows exRows : List OldTool.ORow) (exDate : String),
        (OldTool.oldEstimate rows exRows exDate).1 =
          (if 0 < OldTool.underlyingA rows exDate then OldTool.underlyingA rows exDate
           else (exRows.map OldTool.oAbs).sum)
        ∧ ((OldTool.oldEstimate rows exRows exDate).2 = "UNKNOWN" ↔
            OldTool.underlyingA rows exDate = 0 ∧ (exRows.map OldTool.oAbs).sum = 0)) := by
  have hA0iff : ¬ 0 < underlyingAOf ts → underlyingAOf ts = 0 := fun h =>
    le_antisymm (not_lt.mp h) (underlyingAOf_nonneg ts)
  have hB0iff : ¬ 0 < ((exercisesOf ts).map sharesAbs).sum →
      ((exercisesOf ts).map sharesAbs).sum = 0 := fun h =>
    le_antisymm (not_lt.mp h) (sum_sharesAbs_nonneg _)
  refine ⟨buildRollups_head hts hex, rfl, rfl, ?_, ?_, ?_, ?_⟩
  · by_cases hA : 0 < underlyingAOf ts
    · simp [estPairOf, hA]
    · simp [estPairOf, hA]
  · by_cases hA : 0 < underlyingAOf ts
    · have hv : (estPairOf ts).2 = "UNDERLYING_A" := by simp [estPairOf, hA]
      rw [hv]
      exact ⟨fun _ => hA, fun _ => rfl⟩
    · by_cases hB : 0 < ((exercisesOf ts).map sharesAbs).sum
      · have hv : (estPairOf ts).2 = "DERV_1to1" := by simp [estPairOf, hA, hB]
        rw [hv]
        exact ⟨fun h => absurd h (by decide), fun h => absurd h hA⟩
      · have hv : (estPairOf ts).2 = "UNKNOWN" := by simp [estPairOf, hA, hB]
        rw [hv]
        exact ⟨fun h => absurd h (by decide), fun h => absurd h hA⟩
  · by_cases hA : 0 < underlyingAOf ts
    · have hv : (estPairOf ts).2 = "UNDERLYING_A" := by simp [estPairOf, hA]
      rw [hv]
      refine ⟨fun h => absurd h (by decide), ?_⟩
      rintro ⟨h0, -⟩
      rw [h0] at hA
      exact absurd hA (by norm_num)
    · by_cases hB : 0 < ((exercisesOf ts).map sharesAbs).sum
      · have hv : (estPairOf ts).2 = "DERV_1to1" := by simp [estPairOf, hA, hB]
        rw [hv]
        refine ⟨fun h => absurd h (by decide), ?_⟩
        rintro ⟨-, h0⟩
        rw [h0] at hB
        exact absurd hB (by norm_num)
      · have hv : (estPairOf ts).2 = "UNKNOWN" := by simp [estPairOf, hA, hB]
        rw [hv]
        exact ⟨fun _ => ⟨hA0iff hA, hB0iff hB⟩, fun _ => rfl⟩
  · intro rows exRows exDate
    have hA0iff2 : ¬ 0 < OldTool.underlyingA rows exDate →
        OldTool.underlyingA rows exDate = 0 := fun h =>
      le_antisymm (not_lt.mp h) (underlyingA_nonneg rows exDate)
    have hB0iff2 : ¬ 0 < (exRows.map OldTool.oAbs).sum →
        (exRows.map OldTool.oAbs).sum = 0 := fun h =>
      le_antisymm (not_lt.mp h) (oAbs_sum_nonneg _)
    constructor
    · by_cases hA : 0 < OldTool.underlyingA rows exDate
      · simp [OldTool.oldEstimate, hA]
      · simp [OldTool.oldEstimate, hA]
    · by_cases hA : 0 < OldTool.underlyingA rows exDate
      · have hv : (OldTool.oldEstimate rows exRows exDate).2 = "UNDERLYING_A" := by
          simp [OldTool.oldEstimate, hA]
        rw [hv]
        refine ⟨fun h => absurd h (by decide), ?_⟩
        rintro ⟨h0, -⟩
        rw [h0] at hA
        exact absurd hA (by norm_num)
      · by_cases hB : 0 < (exRows.map OldTool.oAbs).sum
        · have hv : (OldTool.oldEstimate rows exRows exDate).2 = "DERV_1to1" := by
            simp [OldTool.oldEstimate, hA, hB]
          rw [hv]
          refine ⟨fun h => absurd h (by decide), ?_⟩
          rintro ⟨-, h0⟩
          rw [h0] at hB
          exact absurd hB (by norm_num)
        · have hv : (OldTool.oldEstimate rows exRows exDate).2 = "UNKNOWN" := by
            simp [OldTool.oldEstimate, hA, hB]
          rw [hv]
          exact ⟨fun _ => ⟨hA0iff2 hA, hB0iff2 hB⟩, fun _ => rfl⟩

/-- C3 witness: the amended theorem applied to the counterexample filing. -/
theorem c3_estimate_amended_witness :
    (buildRollups [c3_ex, c3_acq]).head? = some (exerciseRollupOf [c3_ex, c3_acq]) :=
  (c3_estimate_amended [c3_ex, c3_acq] (by decide) (by decide)).1

/-- C6 counterexample: a filing whose only tax-role record is dated
strictly before the exercise date.  The claim predicts has_tax_rows is
false, but the builder sets it to true because it only tests whether the
tax bucket is nonempty. -/
theorem c6_has_tax_counterexample :
    strLtB c6_tax.transactionDate c6_ex.transactionDate = true
    ∧ (buildRollups [c6_ex, c6_tax]).head? = some (exerciseRollupOf [c6_ex, c6_tax])
    ∧ (exerciseRollupOf [c6_ex, c6_tax]).hasTaxRows = some true := by
  refine ⟨by decide, ?_, ?_⟩ <;> with_unfolding_all decide

/-- C6 amended: the current builder sets has_tax_rows on the exercise
roll-up exactly when the filing contains at least one tax-role record,
regardless of dates; the claimed rule (some tax-role record dated on or
after the exercise date) is the legacy per-date builder's. -/
theorem c6_has_tax_amended (ts : List Txn) (hts : ts ≠ [])
    (hex : (exercisesOf ts).isEmpty = false) :
    (buildRollups ts).head? = some (exerciseRollupOf ts)
    ∧ ((exerciseRollupOf ts).hasTaxRows = some true ↔ taxRowsOf ts ≠ [])
    ∧ (∀ (taxRows : List OldTool.ORow) (exDate : String),
        OldTool.oldHasTax taxRows exDate = true ↔
          ∃ tr ∈ taxRows, strLeB exDate tr.tradeDate = true) := by
  refine ⟨buildRollups_head hts hex, ?_, ?_⟩
  · show some (!(taxRowsOf ts).isEmpty) = some true ↔ taxRowsOf ts ≠ []
    constructor
    · intro h hnil
      have := Option.some.inj h
      rw [hnil] at this
      simp at this
    · intro h
      congr 1
      simp only [Bool.not_eq_true']
      rcases htx : taxRowsOf ts with - | ⟨a, r⟩
      · exact absurd htx h
      · rfl
  · intro taxRows exDate
    unfold OldTool.oldHasTax
    rw [List.any_eq_true]

/-- C6 witness: the amended theorem applied to the counterexample
filing. -/
theorem c6_has_tax_amended_witness :
    (buildRollups [c6_ex, c6_tax]).head? = some (exerciseRollupOf [c6_ex, c6_tax]) :=
  (c6_has_tax_amended [c6_ex, c6_tax] (by decide) (by decide)).1

theorem linkStateOf_zero {ts : List Txn} (hzero : (estPairOf ts).1 = 0) :
    linkStateOf ts = ⟨0, [], [], none, 0⟩ := by
  unfold linkStateOf
  rw [hzero]
  cases h : salesInOrderOf ts with
  | nil => rfl
  | cons a r => simp [linkSales]

/-- C7 counterexample: a filing with an exercise record carrying no share
count (estimate 0, method UNKNOWN) and a sale-common disposal of 200
shares.  The claim predicts the disposal is linked and the roll-up says
MISMATCH with delta 200; the builder links nothing (the pass stops at
remaining 0), reports EXACT_MATCH with delta 0, and routes the disposal
to the automatic-disposition roll-up. -/
theorem c7_zero_estimate_counterexample :
    (estPairOf [c7_ex, c7_sale]).1 = 0
    ∧ sharesAbs c7_sale = 200
    ∧ (exerciseRollupOf [c7_ex, c7_sale]).matchStatus = some "EXACT_MATCH"
    ∧ (exerciseRollupOf [c7_ex, c7_sale]).matchDelta = some 0
    ∧ (exerciseRollupOf [c7_ex, c7_sale]).soldNonTaxSum = some 0
    ∧ ((buildRollups [c7_ex, c7_sale]).filter (fun r => r.idx == some 1)).map
        (fun r => r.eventId) = [some "000123-AUTODISP-01"] := by
  refine ⟨?_, ?_, ?_, ?_, ?_, ?_⟩ <;> with_unfolding_all decide

/-- C7 amended: a zero exercise estimate with nonzero sale-common
disposals is legal input and nothing fails, but the engine links no
disposal at all: the linking pass stops immediately, the exercise
roll-up reports EXACT_MATCH with delta 0 (an Exercise - Hold), and every
sale-common record is routed unchanged into the automatic-disposition
bucket with its event id. -/
theorem c7_zero_estimate_amended (ts : List Txn) (hts : ts ≠ [])
    (hex : (exercisesOf ts).isEmpty = false) (hzero : (estPairOf ts).1 = 0) :
    (buildRollups ts).head? = some (exerciseRollupOf ts)
    ∧ (linkStateOf ts).linked = []
    ∧ (exerciseRollupOf ts).matchStatus = some "EXACT_MATCH"
    ∧ (exerciseRollupOf ts).matchDelta = some 0
    ∧ (exerciseRollupOf ts).soldNonTaxSum = some 0
    ∧ (exerciseRollupOf ts).aggregateType = some "Exercise - Hold"
    ∧ unlinkedSalesOf ts = (salesCommonOf ts).map (fun s => { s with rowType := "SOURCE" })
    ∧ (∀ r ∈ unlinked2Of ts, r.eventId = some (eventIdAutoOf ts)) := by
  have hlink := linkStateOf_zero hzero
  have hlinked : (linkStateOf ts).linked = [] := by rw [hlink]
  have hsum : linkedSumOf ts = 0 := by
    unfold linkedSumOf
    rw [hlinked]
    rfl
  have hmr : matchResultOf ts = ⟨"EXACT_MATCH", 0, false⟩ := by
    unfold matchResultOf
    rw [hzero, hsum]
    have : (0 : ℚ) - 0 = 0 := by norm_num
    unfold calculateMatchStatus
    simp
  refine ⟨buildRollups_head hts hex, hlinked, ?_, ?_, ?_, ?_, ?_, ?_⟩
  · show some (matchResultOf ts).status = some "EXACT_MATCH"
    rw [hmr]
  · show some (matchResultOf ts).delta = some 0
    rw [hmr]
  · show some (linkedSumOf ts) = some 0
    rw [hsum]
  · show some (aggregateTypeOf ts) = some "Exercise - Hold"
    unfold aggregateTypeOf
    rw [hsum]
    norm_num
  · unfold unlinkedSalesOf
    rw [hlink]
    show ((salesCommonOf ts).filter
        (fun s => !(([] : List (Option Nat)).contains s.idx))).map
        (fun s => { s with rowType := "SOURCE" }) ++ [] = _
    rw [List.append_nil]
    congr 1
    have : (fun s : Txn => !(([] : List (Option Nat)).contains s.idx)) = fun _ => true := by
      funext s
      rfl
    rw [this, List.filter_true]
  · intro r hr
    unfold unlinked2Of at hr
    rcases List.mem_map.mp hr with ⟨x, _, rfl⟩
    rfl

/-- C7 witness: the amended theorem applied to the zero-estimate filing
with the 200-share sale. -/
theorem c7_zero_estimate_amended_witness :
    (exerciseRollupOf [c7_ex, c7_sale]).matchStatus = some "EXACT_MATCH" :=
  (c7_zero_estimate_amended [c7_ex, c7_sale] (by decide) (by decide)
    (by with_unfolding_all decide)).2.2.1

/-- C4 counterexample: two exercise records on different trade dates in
one filing.  The claim predicts one roll-up per date group with event
ids derived from accession plus exercise date plus a sequence number;
the builder produces a single combined roll-up and gives every
summarized record the date-free event id accession-EXERCISE-01. -/
theorem c4_event_id_counterexample :
    c4_ex1.transactionDate ≠ c4_ex2.transactionDate
    ∧ (buildRollups [c4_ex1, c4_ex2]).countP (fun r => r.rowType == "ROLLUP") = 1
    ∧ (buildRollups [c4_ex1, c4_ex2]).all
        (fun r => r.eventId == some "000123000045-EXERCISE-01") = true := by
  refine ⟨by decide, ?_, ?_⟩ <;> with_unfolding_all decide

theorem exerciseRows2_rowType {ts : List Txn} :
    ∀ r ∈ exerciseRows2Of ts, r.rowType = "SOURCE" := by
  intro r hr
  rcases List.mem_map.mp hr with ⟨x, _, rfl⟩
  rfl

theorem linked2_rowType {ts : List Txn} (hwf : wfInput ts = true) :
    ∀ r ∈ linked2Of ts, r.rowType = "SOURCE" ∨ r.rowType = "SYNTHETIC" := by
  intro r hr
  rcases List.mem_map.mp hr with ⟨x, hx, rfl⟩
  have hshape := linkStateOf_linked_shape hwf x hx
  by_cases hf : x.fresh
  · rw [if_pos hf]
    exact Or.inr (hshape.1 hf)
  · rw [if_neg hf]
    exact Or.inl rfl

theorem unlinked2_rowType {ts : List Txn} :
    ∀ r ∈ unlinked2Of ts, r.rowType = "SOURCE" ∨ r.rowType = "SYNTHETIC" := by
  intro r hr
  rcases List.mem_map.mp hr with ⟨x, hx, rfl⟩
  rcases unlinkedSales_shape x hx with h | ⟨h, -⟩
  · exact Or.inl h
  · exact Or.inr h

theorem mapSource_rowType {l : List Txn} :
    ∀ r ∈ l.map (fun x => { x with rowType := "SOURCE" }), r.rowType = "SOURCE" := by
  intro r hr
  rcases List.mem_map.mp hr with ⟨x, _, rfl⟩
  rfl

theorem countP_zero_of_not_rollup {l : List Txn} {p : Txn → Bool}
    (hshape : ∀ r ∈ l, r.rowType = "SOURCE" ∨ r.rowType = "SYNTHETIC")
    (hp : ∀ r, r.rowType ≠ "ROLLUP" → p r = false) : l.countP p = 0 := by
  rw [List.countP_eq_zero]
  intro r hr
  have : r.rowType ≠ "ROLLUP" := by
    rcases hshape r hr with h | h <;> simp [h]
  simp [hp r this]

/-- The only ROLLUP-typed rows in the builder output are the exercise
roll-up (always first) and the automatic-disposition roll-up (present
exactly when the unlinked bucket is nonempty). -/
theorem buildRollups_countP_rollup (ts : List Txn) (hwf : wfInput ts = true)
    (hts : ts ≠ []) (hex : (exercisesOf ts).isEmpty = false) (p : Txn → Bool)
    (hp : ∀ r, r.rowType ≠ "ROLLUP" → p r = false) :
    (buildRollups ts).countP p
      = (if p (exerciseRollupOf ts) then 1 else 0)
        + (if (unlinkedSalesOf ts).isEmpty then 0
           else if p (autoRollupOf ts) then 1 else 0) := by
  cases ts with
  | nil => exact absurd rfl hts
  | cons t0 rest =>
    unfold buildRollups
    rw [if_neg (by rw [hex]; exact Bool.false_ne_true)]
    rw [List.countP_append, List.countP_append, List.countP_append, List.countP_append,
      List.countP_append, List.countP_append]
    have hder : (derivativeExercisesOf (t0 :: rest)).countP p = 0 := by
      unfold derivativeExercisesOf
      rw [countP_insertionSort]
      refine countP_zero_of_not_rollup ?_ hp
      intro r hr
      exact Or.inl (exerciseRows2_rowType r (List.mem_filter.mp hr).1)
    have hnond : (nonDerivativeExercisesOf (t0 :: rest)).countP p = 0 := by
      unfold nonDerivativeExercisesOf
      rw [countP_insertionSort]
      refine countP_zero_of_not_rollup ?_ hp
      intro r hr
      exact Or.inl (exerciseRows2_rowType r (List.mem_filter.mp hr).1)
    have hlink : (linkedOrderedOf (t0 :: rest)).countP p = 0 := by
      unfold linkedOrderedOf
      rw [countP_insertionSort]
      exact countP_zero_of_not_rollup (linked2_rowType hwf) hp
    have htax : (taxOrderedOf (t0 :: rest)).countP p = 0 := by
      unfold taxOrderedOf
      rw [countP_insertionSort]
      exact countP_zero_of_not_rollup (fun r hr => Or.inl (mapSource_rowType r hr)) hp
    have hoth : (otherOrderedOf (t0 :: rest)).countP p = 0 := by
      unfold otherOrderedOf
      rw [countP_insertionSort]
      exact countP_zero_of_not_rollup (fun r hr => Or.inl (mapSource_rowType r hr)) hp
    have hauto : (autoSectionOf (t0 :: rest)).countP p =
        (if (unlinkedSalesOf (t0 :: rest)).isEmpty then 0
         else if p (autoRollupOf (t0 :: rest)) then 1 else 0) := by
      unfold autoSectionOf
      by_cases hu : (unlinkedSalesOf (t0 :: rest)).isEmpty
      · rw [if_pos hu, if_pos hu]
        rfl
      · rw [if_neg hu, if_neg hu]
        rw [List.countP_append]
        have h2 : (List.insertionSort ordLe (unlinked2Of (t0 :: rest))).countP p = 0 := by
          rw [countP_insertionSort]
          exact countP_zero_of_not_rollup unlinked2_rowType hp
        rw [h2, List.countP_cons, List.countP_nil]
        simp [Nat.add_comm]
    rw [hder, hnond, hlink, htax, hoth, hauto]
    rw [List.countP_cons, List.countP_nil]
    omega

theorem eventIds_ne (ts : List Txn) : eventIdAutoOf ts ≠ eventIdExerciseOf ts := by
  unfold eventIdAutoOf eventIdExerciseOf
  intro h
  have hd := congrArg String.data h
  simp only [String.data_append] at hd
  have h2 := List.append_cancel_left hd
  exact absurd h2 (by decide)

/-- C4 amended: the current assembler does not group exercise records by
trade date.  It runs one combined linking pass for the whole filing,
emits a single exercise roll-up first in the output carrying the event id
accession-without-dashes plus -EXERCISE-01, assigns that same id to every
exercise record and every linked sale, assigns
accession-without-dashes plus -AUTODISP-01 to the unlinked bucket, and the
output contains exactly one ROLLUP row with the exercise event id and at
most two ROLLUP rows in total. -/
theorem c4_combined_pass_amended (ts : List Txn) (hwf : wfInput ts = true)
    (hts : ts ≠ []) (hex : (exercisesOf ts).isEmpty = false) :
    (buildRollups ts).head? = some (exerciseRollupOf ts)
    ∧ (exerciseRollupOf ts).eventId
        = some (stripDashes (accessionOf ts) ++ "-EXERCISE-01")
    ∧ (autoRollupOf ts).eventId
        = some (stripDashes (accessionOf ts) ++ "-AUTODISP-01")
    ∧ (∀ r ∈ exerciseRows2Of ts, r.eventId = some (eventIdExerciseOf ts))
    ∧ (∀ r ∈ linked2Of ts, r.eventId = some (eventIdExerciseOf ts))
    ∧ (∀ r ∈ unlinked2Of ts, r.eventId = some (eventIdAutoOf ts))
    ∧ (buildRollups ts).countP
        (fun r => r.rowType == "ROLLUP" && r.eventId == some (eventIdExerciseOf ts)) = 1
    ∧ (buildRollups ts).countP (fun r => r.rowType == "ROLLUP") ≤ 2 := by
  refine ⟨buildRollups_head hts hex, rfl, rfl, ?_, ?_, ?_, ?_, ?_⟩
  · intro r hr
    rcases List.mem_map.mp hr with ⟨x, _, rfl⟩
    rfl
  · intro r hr
    rcases List.mem_map.mp hr with ⟨x, _, rfl⟩
    by_cases hf : x.fresh
    · rw [if_pos hf]
    · rw [if_neg hf]
  · intro r hr
    rcases List.mem_map.mp hr with ⟨x, _, rfl⟩
    rfl
  · rw [buildRollups_countP_rollup ts hwf hts hex _ ?side]
    case side =>
      intro r hrt
      simp [hrt]
    have h1 : ((exerciseRollupOf ts).rowType == "ROLLUP"
        && (exerciseRollupOf ts).eventId == some (eventIdExerciseOf ts)) = true := by
      show ("ROLLUP" == "ROLLUP" && some (eventIdExerciseOf ts) == some (eventIdExerciseOf ts)) = true
      simp
    have h2 : ((autoRollupOf ts).rowType == "ROLLUP"
        && (autoRollupOf ts).eventId == some (eventIdExerciseOf ts)) = false := by
      show ("ROLLUP" == "ROLLUP" && some (eventIdAutoOf ts) == some (eventIdExerciseOf ts)) = false
      simp [eventIds_ne ts]
    rw [h1, h2]
    have hb : (if (unlinkedSalesOf ts).isEmpty = true then 0
        else if false = true then 1 else 0) = 0 := by
      split <;> simp
    rw [hb]
    simp
  · rw [buildRollups_countP_rollup ts hwf hts hex _ ?side2]
    case side2 =>
      intro r hrt
      simp [hrt]
    have ha : (if ((exerciseRollupOf ts).rowType == "ROLLUP") = true then 1 else 0) ≤ 1 := by
      split <;> omega
    have hb : (if (unlinkedSalesOf ts).isEmpty = true then 0
        else if ((autoRollupOf ts).rowType == "ROLLUP") = true then 1 else 0) ≤ 1 := by
      split
      · omega
      · split <;> omega
    omega

/-- C4 witness: the amended theorem applied to the two-date filing of the
counterexample: exactly one exercise roll-up with the date-free id. -/
theorem c4_combined_pass_amended_witness :
    (buildRollups [c4_ex1, c4_ex2]).countP
      (fun r => r.rowType == "ROLLUP"
        && r.eventId == some (eventIdExerciseOf [c4_ex1, c4_ex2])) = 1 :=
  (c4_combined_pass_amended [c4_ex1, c4_ex2] (by decide) (by decide)
    (by decide)).2.2.2.2.2.2.1

theorem oldUpgrade_fields (r : OldTool.ORow) :
    (OldTool.oldUpgrade r).tradeDate = r.tradeDate
    ∧ (OldTool.oldUpgrade r).oidx = r.oidx
    ∧ (OldTool.oldUpgrade r).assigned = r.assigned
    ∧ (OldTool.oldUpgrade r).shares = r.shares := by
  unfold OldTool.oldUpgrade
  split <;> simp

/-- Every row the legacy matcher links comes from a pool row that was not
already assigned, is not dated before the exercise date, and has nonzero
magnitude; linking preserves the trade date. -/
theorem oldLinkSales_linked_src (exDate : String) :
    ∀ (rem : ℚ) (pool : List OldTool.ORow),
      ∀ r ∈ (OldTool.oldLinkSales exDate rem pool).2.1,
        ∃ s ∈ pool, s.assigned = false ∧ Insider.strLtB s.tradeDate exDate = false
          ∧ OldTool.oAbs s ≠ 0 ∧ r.tradeDate = s.tradeDate := by
  intro rem pool
  induction pool generalizing rem with
  | nil =>
    intro r hr
    simp [OldTool.oldLinkSales] at hr
  | cons s rest ih =>
    intro r hr
    by_cases ha : s.assigned
    · rw [show OldTool.oldLinkSales exDate rem (s :: rest) =
        (s :: (OldTool.oldLinkSales exDate rem rest).1,
          (OldTool.oldLinkSales exDate rem rest).2.1,
          (OldTool.oldLinkSales exDate rem rest).2.2) by
          simp [OldTool.oldLinkSales, ha]] at hr
      rcases ih rem r hr with ⟨s2, hs2, hrest⟩
      exact ⟨s2, List.mem_cons_of_mem _ hs2, hrest⟩
    · have ha' : s.assigned = false := Bool.not_eq_true _ ▸ (by simpa using ha)
      by_cases hd : Insider.strLtB s.tradeDate exDate
      · rw [show OldTool.oldLinkSales exDate rem (s :: rest) =
          (s :: (OldTool.oldLinkSales exDate rem rest).1,
            (OldTool.oldLinkSales exDate rem rest).2.1,
            (OldTool.oldLinkSales exDate rem rest).2.2) by
            simp [OldTool.oldLinkSales, ha, hd]] at hr
        rcases ih rem r hr with ⟨s2, hs2, hrest⟩
        exact ⟨s2, List.mem_cons_of_mem _ hs2, hrest⟩
      · have hd' : Insider.strLtB s.tradeDate exDate = false := by
          simpa using hd
        by_cases hz : OldTool.oAbs s = 0
        · rw [show OldTool.oldLinkSales exDate rem (s :: rest) =
            (s :: (OldTool.oldLinkSales exDate rem rest).1,
              (OldTool.oldLinkSales exDate rem rest).2.1,
              (OldTool.oldLinkSales exDate rem rest).2.2) by
              simp [OldTool.oldLinkSales, ha, hd, hz]] at hr
          rcases ih rem r hr with ⟨s2, hs2, hrest⟩
          exact ⟨s2, List.mem_cons_of_mem _ hs2, hrest⟩
        · by_cases h0 : rem ≤ 0
          · rw [show OldTool.oldLinkSales exDate rem (s :: rest) =
              (s :: (OldTool.oldLinkSales exDate rem rest).1,
                (OldTool.oldLinkSales exDate rem rest).2.1,
                (OldTool.oldLinkSales exDate rem rest).2.2) by
                simp [OldTool.oldLinkSales, ha, hd, hz, h0]] at hr
            rcases ih rem r hr with ⟨s2, hs2, hrest⟩
            exact ⟨s2, List.mem_cons_of_mem _ hs2, hrest⟩
          · by_cases hle : OldTool.oAbs s ≤ rem
            · rw [show OldTool.oldLinkSales exDate rem (s :: rest) =
                (OldTool.oldUpgrade { s with assigned := true } ::
                    (OldTool.oldLinkSales exDate (rem - OldTool.oAbs s) rest).1,
                  OldTool.oldUpgrade { s with assigned := true } ::
                    (OldTool.oldLinkSales exDate (rem - OldTool.oAbs s) rest).2.1,
                  (match s.price with
                    | some pr => OldTool.oAbs s * pr
                    | none => 0) +
                    (OldTool.oldLinkSales exDate (rem - OldTool.oAbs s) rest).2.2) by
                  simp [OldTool.oldLinkSales, ha, hd, hz, h0, hle]] at hr
              rcases List.mem_cons.mp hr with rfl | hr2
              · refine ⟨s, List.mem_cons_self _ _, ha', hd', hz, ?_⟩
                rw [(oldUpgrade_fields _).1]
              · rcases ih (rem - OldTool.oAbs s) r hr2 with ⟨s2, hs2, hrest⟩
                exact ⟨s2, List.mem_cons_of_mem _ hs2, hrest⟩
            · rw [show OldTool.oldLinkSales exDate rem (s :: rest) =
                ({ s with
                    shares := some (-(OldTool.oAbs s - rem)),
                    value := (match s.price with
                      | some pr => some ((OldTool.oAbs s - rem) * pr)
                      | none => s.value) } :: rest,
                  [OldTool.oldUpgrade
                    { s with
                      shares := some (-rem),
                      assigned := true,
                      value := (match s.price with
                        | some pr => some (rem * pr)
                        | none => s.value) }],
                  (match s.price with
                    | some pr => rem * pr
                    | none => 0)) by
                  simp [OldTool.oldLinkSales, ha, hd, hz, h0, hle]] at hr
              rcases List.mem_singleton.mp hr with rfl
              refine ⟨s, List.mem_cons_self _ _, ha', hd', hz, ?_⟩
              rw [(oldUpgrade_fields _).1]

theorem estPairOf_nonneg (ts : List Txn) : 0 ≤ (estPairOf ts).1 := by
  unfold estPairOf
  split
  · exact underlyingAOf_nonneg ts
  · exact sum_sharesAbs_nonneg _

theorem salesInOrder_eq_salesCommon {ts : List Txn} (hwf : wfInput ts = true) :
    salesInOrderOf ts = salesCommonOf ts := by
  unfold salesInOrderOf
  refine List.Sorted.insertionSort_eq ?_
  have hpw := wfInput_pairwise hwf
  have hsub : List.Sublist (salesCommonOf ts) ts := List.filter_sublist ts
  exact (hpw.sublist hsub).imp (fun hab => Nat.le_of_lt hab)

/-- C2 counterexample: a sale-common disposal dated 2024-01-05, strictly
before the 2024-06-10 exercise date, is linked in full by the current
builder and carries the exercise event id in the output: no ascending
trade-date ordering or exercise-date eligibility test exists there. -/
theorem c2_ordering_counterexample :
    strLtB c2_sale.transactionDate c2_ex.transactionDate = true
    ∧ ((buildRollups [c2_ex, c2_sale]).filter (fun t => t.idx == some 1)).map
        (fun t => t.eventId) = [some "000123-EXERCISE-01"]
    ∧ (exerciseRollupOf [c2_ex, c2_sale]).soldNonTaxSum = some 40 := by
  refine ⟨by decide, ?_, ?_⟩ <;> with_unfolding_all decide

/-- C2 amended: the current matcher iterates the sale-common records in
original filing order (the pool it consumes is exactly the filing-order
sale-common bucket) with no trade-date eligibility test; linked rows
appear in strictly increasing filing position; zero-magnitude disposals
are never linked; a non-fragment linked row is a full sale, unchanged
apart from the label upgrade; the linked share sum never exceeds the
estimate, and the remaining needed amount is exactly the estimate minus
the linked sum.  Ascending trade-date ordering and the not-earlier-than-
the-exercise-date eligibility test are the legacy matcher's: its pool is
date-sorted and every row it links was unassigned, dated on or after the
exercise date, and of nonzero magnitude. -/
theorem c2_greedy_linking_amended (ts : List Txn) (hwf : wfInput ts = true) :
    salesInOrderOf ts = salesCommonOf ts
    ∧ List.Pairwise (fun x y : Option Nat => x.getD 0 < y.getD 0)
        ((linkStateOf ts).linked.map (fun r => r.idx))
    ∧ (∀ r ∈ (linkStateOf ts).linked, 0 < sharesAbs r)
    ∧ (∀ r ∈ (linkStateOf ts).linked, r.fresh = false →
        ∃ s ∈ salesInOrderOf ts, r = upgradeLabel s
          ∧ r.transactionShares = s.transactionShares)
    ∧ linkedSumOf ts ≤ (estPairOf ts).1
    ∧ (linkStateOf ts).remaining = (estPairOf ts).1 - linkedSumOf ts
    ∧ (∀ rows : List OldTool.ORow,
        List.Sorted OldTool.dateLe (OldTool.oldSalesPool rows))
    ∧ (∀ (exDate : String) (rem : ℚ) (pool : List OldTool.ORow),
        ∀ r ∈ (OldTool.oldLinkSales exDate rem pool).2.1,
          ∃ s ∈ pool, s.assigned = false
            ∧ strLtB s.tradeDate exDate = false
            ∧ OldTool.oAbs s ≠ 0 ∧ r.tradeDate = s.tradeDate) := by
  rcases linkSales_linked_decomp (salesInOrderOf ts) ⟨(estPairOf ts).1, [], [], none, 0⟩
    with ⟨new, hdec, hsub, hmem⟩
  have hlinked : (linkStateOf ts).linked = new := by
    unfold linkStateOf
    rw [hdec]
    simp
  have hpoolclean : ∀ s ∈ salesInOrderOf ts, s.fresh = false ∧ s.idx ≠ none := by
    intro s hs
    have hsts := (mem_salesInOrder_sub hs).1
    refine ⟨(wfInput_clean hwf s hsts).1, ?_⟩
    have := enum_orderKey_ge (wfInput_enum hwf) (fun t ht => (wfInput_clean hwf t ht).1) s hsts
    exact this.2
  have hinv := linkSales_sum_inv (salesInOrderOf ts) ⟨(estPairOf ts).1, [], [], none, 0⟩
  have hinv2 : linkedSumOf ts + (linkStateOf ts).remaining = (estPairOf ts).1 := by
    unfold linkedSumOf linkStateOf
    simpa using hinv
  have hrem0 : 0 ≤ (linkStateOf ts).remaining :=
    linkSales_remaining_nonneg _ _ (estPairOf_nonneg ts)
  refine ⟨salesInOrder_eq_salesCommon hwf, ?_, ?_, ?_, ?_, ?_, ?_, ?_⟩
  · rw [hlinked]
    have hsc : List.Pairwise (fun a b : Txn => orderKey a < orderKey b)
        (salesInOrderOf ts) := by
      rw [salesInOrder_eq_salesCommon hwf]
      exact (wfInput_pairwise hwf).sublist (List.filter_sublist ts)
    have hpoolmap : List.Pairwise (fun x y : Option Nat => x.getD 0 < y.getD 0)
        ((salesInOrderOf ts).map (fun r => r.idx)) := by
      rw [List.pairwise_map]
      refine List.Pairwise.imp_of_mem ?_ hsc
      intro a b ha hb hab
      rcases hpoolclean a ha with ⟨hfa, hia⟩
      rcases hpoolclean b hb with ⟨hfb, hib⟩
      rcases Option.ne_none_iff_exists'.mp hia with ⟨ja, hja⟩
      rcases Option.ne_none_iff_exists'.mp hib with ⟨jb, hjb⟩
      rw [hja, hjb]
      simpa [orderKey, hfa, hfb, hja, hjb] using hab
    exact hpoolmap.sublist hsub
  · intro r hr
    rw [hlinked] at hr
    rcases hmem r hr with ⟨s, hs, hidx, hwhole | ⟨a, ha0, halt, hfrag⟩⟩
    · rcases hwhole with ⟨rfl, hnz⟩
      rw [sharesAbs_upgradeLabel]
      exact lt_of_le_of_ne (sharesAbs_nonneg s) (Ne.symm hnz)
    · rw [hfrag, sharesAbs_upgradeLabel]
      have habs : sharesAbs (splitFragment s a) = |a| := by
        unfold sharesAbs
        rw [(splitFragment_fields s a).2.2.1]
        rfl
      rw [habs]
      exact abs_pos.mpr (ne_of_gt ha0)
  · intro r hr hfr
    rw [hlinked] at hr
    rcases hmem r hr with ⟨s, hs, hidx, hwhole | ⟨a, ha0, halt, hfrag⟩⟩
    · rcases hwhole with ⟨rfl, -⟩
      exact ⟨s, hs, rfl, (upgradeLabel_fields s).2.2.1⟩
    · exfalso
      rw [hfrag, (upgradeLabel_fields _).2.1, (splitFragment_fields s a).2.1] at hfr
      cases hfr
  · linarith
  · linarith
  · intro rows
    unfold OldTool.oldSalesPool
    exact List.sorted_insertionSort _ _
  · exact fun exDate rem pool => oldLinkSales_linked_src exDate rem pool

/-- C2 witness: the amended theorem applied to the counterexample filing
and to a one-row legacy pool. -/
theorem c2_greedy_linking_amended_witness :
    salesInOrderOf [c2_ex, c2_sale] = salesCommonOf [c2_ex, c2_sale]
    ∧ List.Sorted OldTool.dateLe (OldTool.oldSalesPool [c2_orow]) := by
  have h := c2_greedy_linking_amended [c2_ex, c2_sale] (by decide)
  exact ⟨h.1, h.2.2.2.2.2.2.1 [c2_orow]⟩

theorem countP_idx_map_preserve {l : List Txn} {f : Txn → Txn}
    (hf : ∀ r, (f r).idx = r.idx) (i : Nat) :
    (l.map f).countP (fun r => r.idx == some i) = l.countP (fun r => r.idx == some i) := by
  rw [List.countP_map]
  congr 1
  funext r
  show ((f r).idx == some i) = (r.idx == some i)
  rw [hf r]

theorem countP_filter_pos {l : List Txn} {p q : Txn → Bool} {t : Txn}
    (hl : l.countP p ≤ 1) (ht : t ∈ l) (hpt : p t = true) (hqt : q t = true) :
    (l.filter q).countP p = 1 := by
  have hle : (l.filter q).countP p ≤ 1 :=
    le_trans (List.Sublist.countP_le p (List.filter_sublist l)) hl
  have hpos : 0 < (l.filter q).countP p := by
    rw [List.countP_pos]
    exact ⟨t, List.mem_filter.mpr ⟨ht, hqt⟩, hpt⟩
  omega

theorem countP_filter_neg {l : List Txn} {p q : Txn → Bool} {t : Txn}
    (hl : l.countP p ≤ 1) (ht : t ∈ l) (hpt : p t = true) (hqt : q t = false) :
    (l.filter q).countP p = 0 := by
  rw [List.countP_eq_zero]
  intro x hx hpx
  have hx2 := List.mem_filter.mp hx
  have hxt := countP_le_one_unique hl hx2.1 ht hpx hpt
  rw [hxt, hqt] at hx2
  exact absurd hx2.2 (by simp)

theorem buildRollups_eq_sections {ts : List Txn} (hts : ts ≠ [])
    (hex : (exercisesOf ts).isEmpty = false) :
    buildRollups ts = [exerciseRollupOf ts] ++ derivativeExercisesOf ts
      ++ nonDerivativeExercisesOf ts ++ linkedOrderedOf ts ++ autoSectionOf ts
      ++ taxOrderedOf ts ++ otherOrderedOf ts := by
  cases ts with
  | nil => exact absurd rfl hts
  | cons t0 rest =>
    unfold buildRollups
    rw [if_neg (by rw [hex]; exact Bool.false_ne_true)]

theorem countP_zero_filter_sub {l : List Txn} {p q : Txn → Bool}
    (h : l.countP p = 0) : (l.filter q).countP p = 0 :=
  Nat.le_zero.mp (h ▸ List.Sublist.countP_le p (List.filter_sublist l))

theorem filter_eq_nil_sorted {p : Txn → Bool} {rel : Txn → Txn → Prop} [DecidableRel rel]
    {l : List Txn} (h : l.countP p = 0) :
    (List.insertionSort rel l).filter p = [] :=
  filter_eq_nil_of_countP (by rw [countP_insertionSort]; exact h)

theorem filter_eq_single_sorted {p : Txn → Bool} {rel : Txn → Txn → Prop} [DecidableRel rel]
    {l : List Txn} {x : Txn} (hc : l.countP p = 1)
    (hch : ∀ r ∈ l, p r = true → r = x) :
    (List.insertionSort rel l).filter p = [x] :=
  filter_eq_single_of_countP (by rw [countP_insertionSort]; exact hc)
    (fun r hr hpr => hch r (mem_insertionSort_iff.mp hr) hpr)

theorem map_char_idx {l : List Txn} {f : Txn → Txn} {t : Txn} {i : Nat}
    (hf : ∀ r, (f r).idx = r.idx)
    (hch : ∀ x ∈ l, (x.idx == some i) = true → x = t) :
    ∀ r ∈ l.map f, (r.idx == some i) = true → r = f t := by
  intro r hr hpr
  rcases List.mem_map.mp hr with ⟨x, hx, rfl⟩
  rw [show ((f x).idx == some i) = (x.idx == some i) by rw [hf x]] at hpr
  rw [hch x hx hpr]

theorem wfRoles_mem {ts : List Txn} (h : wfRoles ts = true) :
    ∀ t ∈ ts, (t.linkRole = "exercise" ∨ t.linkRole = "sale-common"
        ∨ t.linkRole = "tax-sale-issuer" ∨ t.linkRole = "tax-sale-open"
        ∨ t.linkRole = "other")
      ∧ (t.secTable = "Table 1" ∨ t.secTable = "Table 2") := by
  intro t ht
  have := (List.all_eq_true.mp h) t ht
  unfold roleOk at this
  simp only [Bool.and_eq_true, Bool.or_eq_true, beq_iff_eq] at this
  tauto

theorem filter_idx_sorted_map_zero (f : Txn → Txn) {l : List Txn} {i : Nat}
    (hf : ∀ r, (f r).idx = r.idx)
    (hzero : l.countP (fun r => r.idx == some i) = 0) :
    (List.insertionSort ordLe (l.map f)).filter (fun r => r.idx == some i) = [] := by
  refine filter_eq_nil_sorted ?_
  rw [countP_idx_map_preserve hf i]
  exact hzero

theorem filter_idx_sorted_map_one (f : Txn → Txn) {l : List Txn} {x : Txn} {i : Nat}
    (hf : ∀ r, (f r).idx = r.idx)
    (hone : l.countP (fun r => r.idx == some i) = 1)
    (hch : ∀ r ∈ l, (r.idx == some i) = true → r = x) :
    (List.insertionSort ordLe (l.map f)).filter (fun r => r.idx == some i) = [f x] := by
  refine filter_eq_single_sorted ?_ (map_char_idx hf hch)
  rw [countP_idx_map_preserve hf i]
  exact hone

theorem filter_idx_sorted_filter_map_pos (f : Txn → Txn) {q1 q2 : Txn → Bool}
    {l : List Txn} {t : Txn} {i : Nat}
    (hf : ∀ r, (f r).idx = r.idx)
    (hcount : l.countP (fun r => r.idx == some i) ≤ 1) (htmem : t ∈ l)
    (hpt : (t.idx == some i) = true)
    (huniq : ∀ x ∈ l, (x.idx == some i) = true → x = t)
    (hq1 : q1 t = true) (hq2 : q2 (f t) = true) :
    (List.insertionSort ordLe (((l.filter q1).map f).filter q2)).filter
      (fun r => r.idx == some i) = [f t] := by
  have hm : ((l.filter q1).map f).countP (fun r => r.idx == some i) ≤ 1 := by
    rw [countP_idx_map_preserve hf i]
    exact le_trans (List.Sublist.countP_le _ (List.filter_sublist l)) hcount
  have hmem : f t ∈ (l.filter q1).map f :=
    List.mem_map_of_mem f (List.mem_filter.mpr ⟨htmem, hq1⟩)
  have hpft : ((f t).idx == some i) = true := by
    rw [show (f t).idx = t.idx from hf t]
    exact hpt
  refine filter_eq_single_sorted (countP_filter_pos hm hmem hpft hq2) ?_
  intro r hr hpr
  exact map_char_idx hf (fun x hx hpx => huniq x (List.mem_filter.mp hx).1 hpx)
    r (List.mem_filter.mp hr).1 hpr

theorem filter_idx_sorted_filter_map_neg1 (f : Txn → Txn) {q1 q2 : Txn → Bool}
    {l : List Txn} {t : Txn} {i : Nat}
    (hf : ∀ r, (f r).idx = r.idx)
    (hcount : l.countP (fun r => r.idx == some i) ≤ 1) (htmem : t ∈ l)
    (hpt : (t.idx == some i) = true)
    (hq1 : q1 t = false) :
    (List.insertionSort ordLe (((l.filter q1).map f).filter q2)).filter
      (fun r => r.idx == some i) = [] := by
  refine filter_eq_nil_sorted (countP_zero_filter_sub ?_)
  rw [countP_idx_map_preserve hf i]
  exact countP_filter_neg hcount htmem hpt hq1

theorem filter_idx_sorted_filter_map_neg2 (f : Txn → Txn) {q1 q2 : Txn → Bool}
    {l : List Txn} {t : Txn} {i : Nat}
    (hf : ∀ r, (f r).idx = r.idx)
    (hcount : l.countP (fun r => r.idx == some i) ≤ 1) (htmem : t ∈ l)
    (hpt : (t.idx == some i) = true)
    (hq1 : q1 t = true) (hq2 : q2 (f t) = false) :
    (List.insertionSort ordLe (((l.filter q1).map f).filter q2)).filter
      (fun r => r.idx == some i) = [] := by
  have hm : ((l.filter q1).map f).countP (fun r => r.idx == some i) ≤ 1 := by
    rw [countP_idx_map_preserve hf i]
    exact le_trans (List.Sublist.countP_le _ (List.filter_sublist l)) hcount
  have hmem : f t ∈ (l.filter q1).map f :=
    List.mem_map_of_mem f (List.mem_filter.mpr ⟨htmem, hq1⟩)
  have hpft : ((f t).idx == some i) = true := by
    rw [show (f t).idx = t.idx from hf t]
    exact hpt
  exact filter_eq_nil_sorted (countP_filter_neg hm hmem hpft hq2)

theorem filter_idx_autoSection_zero {ts : List Txn} {i : Nat}
    (hzero : (unlinkedSalesOf ts).countP (fun r => r.idx == some i) = 0) :
    (autoSectionOf ts).filter (fun r => r.idx == some i) = [] := by
  unfold autoSectionOf
  by_cases hu : (unlinkedSalesOf ts).isEmpty
  · rw [if_pos hu]
    rfl
  · rw [if_neg hu, List.filter_append]
    rw [show ([autoRollupOf ts].filter (fun r => r.idx == some i)) = [] from rfl]
    rw [show unlinked2Of ts
        = (unlinkedSalesOf ts).map (fun r => { r with eventId := some (eventIdAutoOf ts) })
      from rfl]
    rw [filter_idx_sorted_map_zero
      (fun r => { r with eventId := some (eventIdAutoOf ts) }) (fun r => rfl) hzero]
    rfl

theorem filter_idx_autoSection_one {ts : List Txn} {x : Txn} {i : Nat}
    (hone : (unlinkedSalesOf ts).countP (fun r => r.idx == some i) = 1)
    (hch : ∀ r ∈ unlinkedSalesOf ts, (r.idx == some i) = true → r = x) :
    (autoSectionOf ts).filter (fun r => r.idx == some i)
      = [{ x with eventId := some (eventIdAutoOf ts) }] := by
  have hne : (unlinkedSalesOf ts).isEmpty = false := by
    rcases hu : unlinkedSalesOf ts with - | ⟨a, l⟩
    · rw [hu] at hone
      simp at hone
    · rfl
  unfold autoSectionOf
  rw [if_neg (by rw [hne]; exact Bool.false_ne_true), List.filter_append]
  rw [show ([autoRollupOf ts].filter (fun r => r.idx == some i)) = [] from rfl]
  rw [show unlinked2Of ts
      = (unlinkedSalesOf ts).map (fun r => { r with eventId := some (eventIdAutoOf ts) })
    from rfl]
  rw [filter_idx_sorted_map_one
    (fun r => { r with eventId := some (eventIdAutoOf ts) }) (fun r => rfl) hone hch]
  rfl

theorem countP_singleton_pos {x : Txn} {i : Nat} (hx : (x.idx == some i) = true) :
    List.countP (fun r => r.idx == some i) [x] = 1 := by
  rw [List.countP_cons, List.countP_nil]
  simp [hx]

theorem filter_idx_linked2_one {ts : List Txn} {x : Txn} {i : Nat}
    (hone : (linkStateOf ts).linked.countP (fun r => r.idx == some i) = 1)
    (hch : ∀ r ∈ (linkStateOf ts).linked, (r.idx == some i) = true → r = x) :
    (linkedOrderedOf ts).filter (fun r => r.idx == some i)
      = [if x.fresh then ({ x with eventId := some (eventIdExerciseOf ts) } : Txn)
          else { x with eventId := some (eventIdExerciseOf ts), rowType := "SOURCE" }] := by
  unfold linkedOrderedOf linked2Of
  refine filter_idx_sorted_map_one _ ?_ hone hch
  intro r
  by_cases hfr : r.fresh = true
  · rw [if_pos hfr]
  · rw [if_neg hfr]

theorem filter_idx_exRollup (ts : List Txn) (i : Nat) :
    ([exerciseRollupOf ts].filter (fun r => r.idx == some i)) = [] := rfl

theorem filter_idx_nonsale {ts : List Txn} {i : Nat}
    (hsc0 : (salesCommonOf ts).countP (fun r => r.idx == some i) = 0) :
    (linkedOrderedOf ts).filter (fun r => r.idx == some i) = []
    ∧ (autoSectionOf ts).filter (fun r => r.idx == some i) = [] := by
  have hpool0 : (salesInOrderOf ts).countP (fun r => r.idx == some i) = 0 := by
    unfold salesInOrderOf
    rw [countP_insertionSort]
    exact hsc0
  have hunt := linkSales_idx_untouched (salesInOrderOf ts)
    ⟨(estPairOf ts).1, [], [], none, 0⟩ i hpool0
  have hLS : linkStateOf ts
      = linkSales ⟨(estPairOf ts).1, [], [], none, 0⟩ (salesInOrderOf ts) := rfl
  rw [← hLS] at hunt
  have hres0 : ∀ r, (linkStateOf ts).residual = some r → r.idx ≠ some i :=
    hunt.2.2 (fun r hr => Option.noConfusion hr)
  constructor
  · unfold linkedOrderedOf linked2Of
    refine filter_idx_sorted_map_zero _ ?_ ?_
    · intro r
      by_cases hfr : r.fresh = true
      · rw [if_pos hfr]
      · rw [if_neg hfr]
    · exact hunt.2.1
  · refine filter_idx_autoSection_zero ?_
    unfold unlinkedSalesOf
    rw [List.countP_append]
    rw [countP_idx_map_preserve (f := fun s => ({ s with rowType := "SOURCE" } : Txn))
      (fun r => rfl) i]
    rw [countP_zero_filter_sub hsc0]
    cases hresv : (linkStateOf ts).residual with
    | none => rfl
    | some r0 =>
      have hb : (r0.idx == some i) = false := by
        rw [beq_eq_false_iff_ne]
        exact hres0 r0 hresv
      show 0 + List.countP (fun r => r.idx == some i) [r0] = 0
      simp [hb]

/-- Master characterization: for a well-formed filing, the rows of the
builder output carrying the original position i are exactly one of six
shapes: the pass-through row, the exercise row with the exercise event
id, the tax/other pass-through row, the unlinked sale, the fully linked
(possibly label-upgraded) sale, or the two SYNTHETIC split fragments
(linked fragment first, residual second, the linked share sum then equal
to the estimate). -/
theorem hits_characterization (ts : List Txn) (hwf : wfInput ts = true)
    (hroles : wfRoles ts = true) (i : Nat) (h : i < ts.length) :
    ((exercisesOf ts).isEmpty = true
      ∧ (buildRollups ts).filter (fun r => r.idx == some i)
          = [{ ts.get ⟨i, h⟩ with rowType := "SOURCE" }])
    ∨ ((ts.get ⟨i, h⟩).linkRole = "exercise"
      ∧ (buildRollups ts).filter (fun r => r.idx == some i)
          = [{ { ts.get ⟨i, h⟩ with eventId := some (eventIdExerciseOf ts) } with rowType := "SOURCE" }])
    ∨ (((ts.get ⟨i, h⟩).linkRole = "tax-sale-issuer"
        ∨ (ts.get ⟨i, h⟩).linkRole = "tax-sale-open"
        ∨ (ts.get ⟨i, h⟩).linkRole = "other")
      ∧ (buildRollups ts).filter (fun r => r.idx == some i)
          = [{ ts.get ⟨i, h⟩ with rowType := "SOURCE" }])
    ∨ ((ts.get ⟨i, h⟩).linkRole = "sale-common"
      ∧ (buildRollups ts).filter (fun r => r.idx == some i)
          = [{ { ts.get ⟨i, h⟩ with rowType := "SOURCE" } with eventId := some (eventIdAutoOf ts) }])
    ∨ ((ts.get ⟨i, h⟩).linkRole = "sale-common"
      ∧ (buildRollups ts).filter (fun r => r.idx == some i)
          = [{ { upgradeLabel (ts.get ⟨i, h⟩) with eventId := some (eventIdExerciseOf ts) } with rowType := "SOURCE" }])
    ∨ ((ts.get ⟨i, h⟩).linkRole = "sale-common"
      ∧ ∃ a b : ℚ, 0 < a ∧ 0 < b ∧ a + b = sharesAbs (ts.get ⟨i, h⟩)
        ∧ (buildRollups ts).filter (fun r => r.idx == some i)
            = [{ upgradeLabel (splitFragment (ts.get ⟨i, h⟩) a) with eventId := some (eventIdExerciseOf ts) },
               { splitFragment (ts.get ⟨i, h⟩) b with eventId := some (eventIdAutoOf ts) }]
        ∧ linkedSumOf ts = (estPairOf ts).1) := by
  have hts : ts ≠ [] := by
    intro hnil
    rw [hnil] at h
    cases h
  have htmem : ts.get ⟨i, h⟩ ∈ ts := ts.get_mem i h
  have hidx : (ts.get ⟨i, h⟩).idx = some i := enum_idx_eq_get (wfInput_enum hwf) i h
  have hpt : ((ts.get ⟨i, h⟩).idx == some i) = true := by
    simp only [beq_iff_eq]
    exact hidx
  have hcount : ts.countP (fun r => r.idx == some i) ≤ 1 :=
    pairwise_key_countP_le_one (wfInput_pairwise hwf)
      (fun t ht => (wfInput_clean hwf t ht).1) i
  have huniq : ∀ x ∈ ts, (x.idx == some i) = true → x = ts.get ⟨i, h⟩ :=
    fun x hx hpx => countP_le_one_unique hcount hx htmem hpx hpt
  have hclean := wfInput_clean hwf (ts.get ⟨i, h⟩) htmem
  have hrole := wfRoles_mem hroles (ts.get ⟨i, h⟩) htmem
  by_cases hex : (exercisesOf ts).isEmpty
  · -- pass-through
    left
    refine ⟨hex, ?_⟩
    have hred : buildRollups ts =
        List.insertionSort ordLe (ts.map (fun t => { t with rowType := "SOURCE" })) := by
      cases ts with
      | nil => exact absurd rfl hts
      | cons t0 rest =>
        unfold buildRollups
        rw [if_pos hex]
    rw [hred]
    refine filter_eq_single_sorted ?_ ?_
    · rw [countP_idx_map_preserve (f := fun t => { t with rowType := "SOURCE" }) (fun r => rfl) i]
      have hpos : 0 < ts.countP (fun r => r.idx == some i) := by
        rw [List.countP_pos]
        exact ⟨ts.get ⟨i, h⟩, htmem, hpt⟩
      omega
    · exact map_char_idx (fun r => rfl) huniq
  · -- at least one exercise-role record: sectioned output
    have hexf : (exercisesOf ts).isEmpty = false := by simpa using hex
    rcases hrole.1 with hr0 | hr0 | hr0 | hr0 | hr0
    · -- exercise role
      right
      left
      refine ⟨hr0, ?_⟩
      have hsc0 : (salesCommonOf ts).countP (fun r => r.idx == some i) = 0 := by
        unfold salesCommonOf
        refine countP_filter_neg hcount htmem hpt ?_
        show ((ts.get ⟨i, h⟩).linkRole == "sale-common") = false
        rw [hr0]
        rfl
      obtain ⟨hS4, hS5⟩ := filter_idx_nonsale hsc0
      have hS6 : (taxOrderedOf ts).filter (fun r => r.idx == some i) = [] := by
        unfold taxOrderedOf taxRowsOf
        refine filter_idx_sorted_map_zero _ ?_ ?_
        · intro r
          rfl
        · refine countP_filter_neg hcount htmem hpt ?_
          show isTaxRole (ts.get ⟨i, h⟩) = false
          unfold isTaxRole
          rw [hr0]
          rfl
      have hS7 : (otherOrderedOf ts).filter (fun r => r.idx == some i) = [] := by
        unfold otherOrderedOf otherRowsOf
        refine filter_idx_sorted_map_zero _ ?_ ?_
        · intro r
          rfl
        · refine countP_filter_neg hcount htmem hpt ?_
          show ((ts.get ⟨i, h⟩).linkRole == "other") = false
          rw [hr0]
          rfl
      rcases hrole.2 with htab | htab
      · have hS2 : (derivativeExercisesOf ts).filter (fun r => r.idx == some i) = [] := by
          unfold derivativeExercisesOf exerciseRows2Of exercisesOf
          refine filter_idx_sorted_filter_map_neg2 _ ?_ hcount htmem hpt ?_ ?_
          · intro r
            rfl
          · show ((ts.get ⟨i, h⟩).linkRole == "exercise") = true
            rw [beq_iff_eq]
            exact hr0
          · show ((ts.get ⟨i, h⟩).secTable == "Table 2") = false
            rw [htab]
            rfl
        have hS3 : (nonDerivativeExercisesOf ts).filter (fun r => r.idx == some i)
            = [{ ts.get ⟨i, h⟩ with eventId := some (eventIdExerciseOf ts), rowType := "SOURCE" }] := by
          unfold nonDerivativeExercisesOf exerciseRows2Of exercisesOf
          refine filter_idx_sorted_filter_map_pos _ ?_ hcount htmem hpt huniq ?_ ?_
          · intro r
            rfl
          · show ((ts.get ⟨i, h⟩).linkRole == "exercise") = true
            rw [beq_iff_eq]
            exact hr0
          · show ((ts.get ⟨i, h⟩).secTable == "Table 1") = true
            rw [beq_iff_eq]
            exact htab
        rw [buildRollups_eq_sections hts hexf]
        simp only [List.filter_append]
        rw [filter_idx_exRollup, hS2, hS3, hS4, hS5, hS6, hS7]
        rfl
      · have hS2 : (derivativeExercisesOf ts).filter (fun r => r.idx == some i)
            = [{ ts.get ⟨i, h⟩ with eventId := some (eventIdExerciseOf ts), rowType := "SOURCE" }] := by
          unfold derivativeExercisesOf exerciseRows2Of exercisesOf
          refine filter_idx_sorted_filter_map_pos _ ?_ hcount htmem hpt huniq ?_ ?_
          · intro r
            rfl
          · show ((ts.get ⟨i, h⟩).linkRole == "exercise") = true
            rw [beq_iff_eq]
            exact hr0
          · show ((ts.get ⟨i, h⟩).secTable == "Table 2") = true
            rw [beq_iff_eq]
            exact htab
        have hS3 : (nonDerivativeExercisesOf ts).filter (fun r => r.idx == some i) = [] := by
          unfold nonDerivativeExercisesOf exerciseRows2Of exercisesOf
          refine filter_idx_sorted_filter_map_neg2 _ ?_ hcount htmem hpt ?_ ?_
          · intro r
            rfl
          · show ((ts.get ⟨i, h⟩).linkRole == "exercise") = true
            rw [beq_iff_eq]
            exact hr0
          · show ((ts.get ⟨i, h⟩).secTable == "Table 1") = false
            rw [htab]
            rfl
        rw [buildRollups_eq_sections hts hexf]
        simp only [List.filter_append]
        rw [filter_idx_exRollup, hS2, hS3, hS4, hS5, hS6, hS7]
        rfl
    · -- sale-common role
      have hqsaleT : ((ts.get ⟨i, h⟩).linkRole == "sale-common") = true := by
        rw [beq_iff_eq]
        exact hr0
      have htsc : ts.get ⟨i, h⟩ ∈ salesCommonOf ts := by
        unfold salesCommonOf
        exact List.mem_filter.mpr ⟨htmem, hqsaleT⟩
      have hscount : (salesCommonOf ts).countP (fun r => r.idx == some i) ≤ 1 := by
        unfold salesCommonOf
        exact le_trans (List.Sublist.countP_le _ (List.filter_sublist ts)) hcount
      have hpoolle : (salesInOrderOf ts).countP (fun r => r.idx == some i) ≤ 1 := by
        unfold salesInOrderOf
        rw [countP_insertionSort]
        exact hscount
      have hLS : linkStateOf ts
          = linkSales ⟨(estPairOf ts).1, [], [], none, 0⟩ (salesInOrderOf ts) := rfl
      have htri := linkSales_idx_trichotomy (salesInOrderOf ts)
        ⟨(estPairOf ts).1, [], [], none, 0⟩ i hpoolle rfl rfl (fun r hr => Option.noConfusion hr)
      rw [← hLS] at htri
      have hS2 : (derivativeExercisesOf ts).filter (fun r => r.idx == some i) = [] := by
        unfold derivativeExercisesOf exerciseRows2Of exercisesOf
        refine filter_idx_sorted_filter_map_neg1 _ ?_ hcount htmem hpt ?_
        · intro r
          rfl
        · show ((ts.get ⟨i, h⟩).linkRole == "exercise") = false
          rw [hr0]
          rfl
      have hS3 : (nonDerivativeExercisesOf ts).filter (fun r => r.idx == some i) = [] := by
        unfold nonDerivativeExercisesOf exerciseRows2Of exercisesOf
        refine filter_idx_sorted_filter_map_neg1 _ ?_ hcount htmem hpt ?_
        · intro r
          rfl
        · show ((ts.get ⟨i, h⟩).linkRole == "exercise") = false
          rw [hr0]
          rfl
      have hS6 : (taxOrderedOf ts).filter (fun r => r.idx == some i) = [] := by
        unfold taxOrderedOf taxRowsOf
        refine filter_idx_sorted_map_zero _ ?_ ?_
        · intro r
          rfl
        · refine countP_filter_neg hcount htmem hpt ?_
          show isTaxRole (ts.get ⟨i, h⟩) = false
          unfold isTaxRole
          rw [hr0]
          rfl
      have hS7 : (otherOrderedOf ts).filter (fun r => r.idx == some i) = [] := by
        unfold otherOrderedOf otherRowsOf
        refine filter_idx_sorted_map_zero _ ?_ ?_
        · intro r
          rfl
        · refine countP_filter_neg hcount htmem hpt ?_
          show ((ts.get ⟨i, h⟩).linkRole == "other") = false
          rw [hr0]
          rfl
      rcases htri with ⟨hA1, hA2, hA3⟩
        | ⟨s, hsmem, hsidx, hsnz, hB1, hB2, hB3, hB4⟩
        | ⟨s, hsmem, hsidx, a, ha1, ha2, hC1, hC2, hC3, hC4, hC5⟩
      · -- untouched: unlinked sale
        right
        right
        right
        left
        refine ⟨hr0, ?_⟩
        have hS4 : (linkedOrderedOf ts).filter (fun r => r.idx == some i) = [] := by
          unfold linkedOrderedOf linked2Of
          refine filter_idx_sorted_map_zero _ ?_ ?_
          · intro r
            by_cases hfr : r.fresh = true
            · rw [if_pos hfr]
            · rw [if_neg hfr]
          · exact hA2
        have hq3 : (!(linkStateOf ts).processed.contains (ts.get ⟨i, h⟩).idx) = true := by
          rw [hidx, hA1]
          rfl
        have hun1 : (unlinkedSalesOf ts).countP (fun r => r.idx == some i) = 1 := by
          unfold unlinkedSalesOf
          rw [List.countP_append]
          rw [countP_idx_map_preserve (f := fun s => ({ s with rowType := "SOURCE" } : Txn))
            (fun r => rfl) i]
          rw [countP_filter_pos (q := fun s => !(linkStateOf ts).processed.contains s.idx)
            hscount htsc hpt hq3]
          cases hresv : (linkStateOf ts).residual with
          | none => rfl
          | some r0 =>
            have hb : (r0.idx == some i) = false := by
              rw [beq_eq_false_iff_ne]
              exact hA3 r0 hresv
            show 1 + List.countP (fun r => r.idx == some i) [r0] = 1
            simp [hb]
        have hch : ∀ r ∈ unlinkedSalesOf ts, (r.idx == some i) = true
            → r = { ts.get ⟨i, h⟩ with rowType := "SOURCE" } := by
          intro r hr hpr
          unfold unlinkedSalesOf at hr
          rcases List.mem_append.mp hr with h1 | h2
          · rcases List.mem_map.mp h1 with ⟨s0, hs0, rfl⟩
            have hps : (s0.idx == some i) = true := hpr
            have hs0c : s0 ∈ salesCommonOf ts := (List.mem_filter.mp hs0).1
            have hs0ts : s0 ∈ ts := by
              unfold salesCommonOf at hs0c
              exact (List.mem_filter.mp hs0c).1
            rw [huniq s0 hs0ts hps]
          · exfalso
            revert h2
            cases hresv : (linkStateOf ts).residual with
            | none =>
              intro h2
              cases h2
            | some r0 =>
              intro h2
              rcases List.mem_singleton.mp h2 with rfl
              exact (hA3 _ hresv) (by rwa [beq_iff_eq] at hpr)
        have hS5 : (autoSectionOf ts).filter (fun r => r.idx == some i)
            = [{ ({ ts.get ⟨i, h⟩ with rowType := "SOURCE" } : Txn) with eventId := some (eventIdAutoOf ts) }] :=
          filter_idx_autoSection_one (x := { ts.get ⟨i, h⟩ with rowType := "SOURCE" }) hun1 hch
        rw [buildRollups_eq_sections hts hexf]
        simp only [List.filter_append]
        rw [filter_idx_exRollup, hS2, hS3, hS4, hS5, hS6, hS7]
        rfl
      · -- fully linked
        right
        right
        right
        right
        left
        have hst : s = ts.get ⟨i, h⟩ := by
          refine huniq s (mem_salesInOrder_sub hsmem).1 ?_
          rw [beq_iff_eq]
          exact hsidx
        subst hst
        refine ⟨hr0, ?_⟩
        have hfreshf : (upgradeLabel (ts.get ⟨i, h⟩)).fresh = false := by
          rw [(upgradeLabel_fields _).2.1]
          exact hclean.1
        have hchl : ∀ r ∈ (linkStateOf ts).linked, (r.idx == some i) = true
            → r = upgradeLabel (ts.get ⟨i, h⟩) := by
          intro r hrl hpr
          exact hB3 r hrl (by rwa [beq_iff_eq] at hpr)
        have hS4 : (linkedOrderedOf ts).filter (fun r => r.idx == some i)
            = [{ { upgradeLabel (ts.get ⟨i, h⟩) with eventId := some (eventIdExerciseOf ts) } with rowType := "SOURCE" }] := by
          rw [filter_idx_linked2_one hB2 hchl]
          rw [if_neg (by rw [hfreshf]; exact Bool.false_ne_true)]
        have hq3f : (!(linkStateOf ts).processed.contains (ts.get ⟨i, h⟩).idx) = false := by
          rw [hidx, hB1]
          rfl
        have hun0 : (unlinkedSalesOf ts).countP (fun r => r.idx == some i) = 0 := by
          unfold unlinkedSalesOf
          rw [List.countP_append]
          rw [countP_idx_map_preserve (f := fun s => ({ s with rowType := "SOURCE" } : Txn))
            (fun r => rfl) i]
          rw [countP_filter_neg (q := fun s => !(linkStateOf ts).processed.contains s.idx)
            hscount htsc hpt hq3f]
          cases hresv : (linkStateOf ts).residual with
          | none => rfl
          | some r0 =>
            have hb : (r0.idx == some i) = false := by
              rw [beq_eq_false_iff_ne]
              exact hB4 r0 hresv
            show 0 + List.countP (fun r => r.idx == some i) [r0] = 0
            simp [hb]
        have hS5 := filter_idx_autoSection_zero hun0
        rw [buildRollups_eq_sections hts hexf]
        simp only [List.filter_append]
        rw [filter_idx_exRollup, hS2, hS3, hS4, hS5, hS6, hS7]
        rfl
      · -- split
        right
        right
        right
        right
        right
        have hst : s = ts.get ⟨i, h⟩ := by
          refine huniq s (mem_salesInOrder_sub hsmem).1 ?_
          rw [beq_iff_eq]
          exact hsidx
        subst hst
        refine ⟨hr0, a, sharesAbs (ts.get ⟨i, h⟩) - a, ha1, by linarith, by ring, ?_, ?_⟩
        · have hfrS : (upgradeLabel (splitFragment (ts.get ⟨i, h⟩) a)).fresh = true := by
            rw [(upgradeLabel_fields _).2.1]
            exact (splitFragment_fields _ _).2.1
          have hchl : ∀ r ∈ (linkStateOf ts).linked, (r.idx == some i) = true
              → r = upgradeLabel (splitFragment (ts.get ⟨i, h⟩) a) := by
            intro r hrl hpr
            exact hC3 r hrl (by rwa [beq_iff_eq] at hpr)
          have hS4 : (linkedOrderedOf ts).filter (fun r => r.idx == some i)
              = [{ upgradeLabel (splitFragment (ts.get ⟨i, h⟩) a) with eventId := some (eventIdExerciseOf ts) }] := by
            rw [filter_idx_linked2_one hC2 hchl]
            rw [if_pos hfrS]
          have hq3f : (!(linkStateOf ts).processed.contains (ts.get ⟨i, h⟩).idx) = false := by
            rw [hidx, hC1]
            rfl
          have hfragp : ((splitFragment (ts.get ⟨i, h⟩) (sharesAbs (ts.get ⟨i, h⟩) - a)).idx
              == some i) = true := by
            rw [show (splitFragment (ts.get ⟨i, h⟩) (sharesAbs (ts.get ⟨i, h⟩) - a)).idx
              = (ts.get ⟨i, h⟩).idx from (splitFragment_fields _ _).1]
            exact hpt
          have hun1 : (unlinkedSalesOf ts).countP (fun r => r.idx == some i) = 1 := by
            unfold unlinkedSalesOf
            rw [List.countP_append]
            rw [countP_idx_map_preserve (f := fun s => ({ s with rowType := "SOURCE" } : Txn))
              (fun r => rfl) i]
            rw [countP_filter_neg (q := fun s => !(linkStateOf ts).processed.contains s.idx)
              hscount htsc hpt hq3f]
            rw [hC4]
            show 0 + List.countP (fun r => r.idx == some i)
              [splitFragment (ts.get ⟨i, h⟩) (sharesAbs (ts.get ⟨i, h⟩) - a)] = 1
            rw [countP_singleton_pos hfragp]
          have hch : ∀ r ∈ unlinkedSalesOf ts, (r.idx == some i) = true
              → r = splitFragment (ts.get ⟨i, h⟩) (sharesAbs (ts.get ⟨i, h⟩) - a) := by
            intro r hr hpr
            unfold unlinkedSalesOf at hr
            rcases List.mem_append.mp hr with h1 | h2
            · exfalso
              rcases List.mem_map.mp h1 with ⟨s0, hs0, rfl⟩
              have hps : (s0.idx == some i) = true := hpr
              have hs0f := List.mem_filter.mp hs0
              have hs0ts : s0 ∈ ts := by
                have hs0c := hs0f.1
                unfold salesCommonOf at hs0c
                exact (List.mem_filter.mp hs0c).1
              have hs0t : s0 = ts.get ⟨i, h⟩ := huniq s0 hs0ts hps
              have hq : (!(linkStateOf ts).processed.contains (ts.get ⟨i, h⟩).idx) = true := by
                rw [← hs0t]
                exact hs0f.2
              rw [hq3f] at hq
              exact Bool.false_ne_true hq
            · revert h2
              cases hresv : (linkStateOf ts).residual with
              | none =>
                intro h2
                cases h2
              | some r0 =>
                intro h2
                rcases List.mem_singleton.mp h2 with rfl
                have hco := hC4
                rw [hresv] at hco
                exact Option.some.inj hco
          have hS5 : (autoSectionOf ts).filter (fun r => r.idx == some i)
              = [{ splitFragment (ts.get ⟨i, h⟩) (sharesAbs (ts.get ⟨i, h⟩) - a) with eventId := some (eventIdAutoOf ts) }] :=
            filter_idx_autoSection_one
              (x := splitFragment (ts.get ⟨i, h⟩) (sharesAbs (ts.get ⟨i, h⟩) - a)) hun1 hch
          rw [buildRollups_eq_sections hts hexf]
          simp only [List.filter_append]
          rw [filter_idx_exRollup, hS2, hS3, hS4, hS5, hS6, hS7]
          rfl
        · have hsum := linkSales_sum_inv (salesInOrderOf ts)
            ⟨(estPairOf ts).1, [], [], none, 0⟩
          rw [← hLS] at hsum
          rw [hC5] at hsum
          unfold linkedSumOf
          simpa using hsum
    · -- tax-sale-issuer role
      right
      right
      left
      refine ⟨Or.inl hr0, ?_⟩
      have hsc0 : (salesCommonOf ts).countP (fun r => r.idx == some i) = 0 := by
        unfold salesCommonOf
        refine countP_filter_neg hcount htmem hpt ?_
        show ((ts.get ⟨i, h⟩).linkRole == "sale-common") = false
        rw [hr0]
        rfl
      obtain ⟨hS4, hS5⟩ := filter_idx_nonsale hsc0
      have hS2 : (derivativeExercisesOf ts).filter (fun r => r.idx == some i) = [] := by
        unfold derivativeExercisesOf exerciseRows2Of exercisesOf
        refine filter_idx_sorted_filter_map_neg1 _ ?_ hcount htmem hpt ?_
        · intro r
          rfl
        · show ((ts.get ⟨i, h⟩).linkRole == "exercise") = false
          rw [hr0]
          rfl
      have hS3 : (nonDerivativeExercisesOf ts).filter (fun r => r.idx == some i) = [] := by
        unfold nonDerivativeExercisesOf exerciseRows2Of exercisesOf
        refine filter_idx_sorted_filter_map_neg1 _ ?_ hcount htmem hpt ?_
        · intro r
          rfl
        · show ((ts.get ⟨i, h⟩).linkRole == "exercise") = false
          rw [hr0]
          rfl
      have hS6 : (taxOrderedOf ts).filter (fun r => r.idx == some i)
          = [{ ts.get ⟨i, h⟩ with rowType := "SOURCE" }] := by
        unfold taxOrderedOf taxRowsOf
        refine filter_idx_sorted_map_one (x := ts.get ⟨i, h⟩) _ ?_ ?_ ?_
        · intro r
          rfl
        · refine countP_filter_pos hcount htmem hpt ?_
          show isTaxRole (ts.get ⟨i, h⟩) = true
          unfold isTaxRole
          rw [hr0]
          rfl
        · intro x hx hpx
          exact huniq x (List.mem_filter.mp hx).1 hpx
      have hS7 : (otherOrderedOf ts).filter (fun r => r.idx == some i) = [] := by
        unfold otherOrderedOf otherRowsOf
        refine filter_idx_sorted_map_zero _ ?_ ?_
        · intro r
          rfl
        · refine countP_filter_neg hcount htmem hpt ?_
          show ((ts.get ⟨i, h⟩).linkRole == "other") = false
          rw [hr0]
          rfl
      rw [buildRollups_eq_sections hts hexf]
      simp only [List.filter_append]
      rw [filter_idx_exRollup, hS2, hS3, hS4, hS5, hS6, hS7]
      rfl
    · -- tax-sale-open role
      right
      right
      left
      refine ⟨Or.inr (Or.inl hr0), ?_⟩
      have hsc0 : (salesCommonOf ts).countP (fun r => r.idx == some i) = 0 := by
        unfold salesCommonOf
        refine countP_filter_neg hcount htmem hpt ?_
        show ((ts.get ⟨i, h⟩).linkRole == "sale-common") = false
        rw [hr0]
        rfl
      obtain ⟨hS4, hS5⟩ := filter_idx_nonsale hsc0
      have hS2 : (derivativeExercisesOf ts).filter (fun r => r.idx == some i) = [] := by
        unfold derivativeExercisesOf exerciseRows2Of exercisesOf
        refine filter_idx_sorted_filter_map_neg1 _ ?_ hcount htmem hpt ?_
        · intro r
          rfl
        · show ((ts.get ⟨i, h⟩).linkRole == "exercise") = false
          rw [hr0]
          rfl
      have hS3 : (nonDerivativeExercisesOf ts).filter (fun r => r.idx == some i) = [] := by
        unfold nonDerivativeExercisesOf exerciseRows2Of exercisesOf
        refine filter_idx_sorted_filter_map_neg1 _ ?_ hcount htmem hpt ?_
        · intro r
          rfl
        · show ((ts.get ⟨i, h⟩).linkRole == "exercise") = false
          rw [hr0]
          rfl
      have hS6 : (taxOrderedOf ts).filter (fun r => r.idx == some i)
          = [{ ts.get ⟨i, h⟩ with rowType := "SOURCE" }] := by
        unfold taxOrderedOf taxRowsOf
        refine filter_idx_sorted_map_one (x := ts.get ⟨i, h⟩) _ ?_ ?_ ?_
        · intro r
          rfl
        · refine countP_filter_pos hcount htmem hpt ?_
          show isTaxRole (ts.get ⟨i, h⟩) = true
          unfold isTaxRole
          rw [hr0]
          rfl
        · intro x hx hpx
          exact huniq x (List.mem_filter.mp hx).1 hpx
      have hS7 : (otherOrderedOf ts).filter (fun r => r.idx == some i) = [] := by
        unfold otherOrderedOf otherRowsOf
        refine filter_idx_sorted_map_zero _ ?_ ?_
        · intro r
          rfl
        · refine countP_filter_neg hcount htmem hpt ?_
          show ((ts.get ⟨i, h⟩).linkRole == "other") = false
          rw [hr0]
          rfl
      rw [buildRollups_eq_sections hts hexf]
      simp only [List.filter_append]
      rw [filter_idx_exRollup, hS2, hS3, hS4, hS5, hS6, hS7]
      rfl
    · -- other role
      right
      right
      left
      refine ⟨Or.inr (Or.inr hr0), ?_⟩
      have hsc0 : (salesCommonOf ts).countP (fun r => r.idx == some i) = 0 := by
        unfold salesCommonOf
        refine countP_filter_neg hcount htmem hpt ?_
        show ((ts.get ⟨i, h⟩).linkRole == "sale-common") = false
        rw [hr0]
        rfl
      obtain ⟨hS4, hS5⟩ := filter_idx_nonsale hsc0
      have hS2 : (derivativeExercisesOf ts).filter (fun r => r.idx == some i) = [] := by
        unfold derivativeExercisesOf exerciseRows2Of exercisesOf
        refine filter_idx_sorted_filter_map_neg1 _ ?_ hcount htmem hpt ?_
        · intro r
          rfl
        · show ((ts.get ⟨i, h⟩).linkRole == "exercise") = false
          rw [hr0]
          rfl
      have hS3 : (nonDerivativeExercisesOf ts).filter (fun r => r.idx == some i) = [] := by
        unfold nonDerivativeExercisesOf exerciseRows2Of exercisesOf
        refine filter_idx_sorted_filter_map_neg1 _ ?_ hcount htmem hpt ?_
        · intro r
          rfl
        · show ((ts.get ⟨i, h⟩).linkRole == "exercise") = false
          rw [hr0]
          rfl
      have hS6 : (taxOrderedOf ts).filter (fun r => r.idx == some i) = [] := by
        unfold taxOrderedOf taxRowsOf
        refine filter_idx_sorted_map_zero _ ?_ ?_
        · intro r
          rfl
        · refine countP_filter_neg hcount htmem hpt ?_
          show isTaxRole (ts.get ⟨i, h⟩) = false
          unfold isTaxRole
          rw [hr0]
          rfl
      have hS7 : (otherOrderedOf ts).filter (fun r => r.idx == some i)
          = [{ ts.get ⟨i, h⟩ with rowType := "SOURCE" }] := by
        unfold otherOrderedOf otherRowsOf
        refine filter_idx_sorted_map_one (x := ts.get ⟨i, h⟩) _ ?_ ?_ ?_
        · intro r
          rfl
        · refine countP_filter_pos hcount htmem hpt ?_
          show ((ts.get ⟨i, h⟩).linkRole == "other") = true
          rw [beq_iff_eq]
          exact hr0
        · intro x hx hpx
          exact huniq x (List.mem_filter.mp hx).1 hpx
      rw [buildRollups_eq_sections hts hexf]
      simp only [List.filter_append]
      rw [filter_idx_exRollup, hS2, hS3, hS4, hS5, hS6, hS7]
      rfl

theorem upgradeLabel_eq_of_cond_true {t : Txn}
    (hc : (t.is10b5_1 && (t.label == "10b5-1 Planned Sale")) = true) :
    upgradeLabel t = { t with label := "10b5-1 Planned Sale (Derivative)" } := by
  unfold upgradeLabel
  rw [if_pos hc]

theorem upgradeLabel_eq_of_cond_false {t : Txn}
    (hc : (t.is10b5_1 && (t.label == "10b5-1 Planned Sale")) = false) :
    upgradeLabel t = t := by
  unfold upgradeLabel
  rw [if_neg (by rw [hc]; exact Bool.false_ne_true)]

/-- C1: on any well-formed filing, each input record at position i is
conserved by the builder: it reaches the output either exactly once, as a
single SOURCE row with its transaction shares, signed shares and unsigned
magnitude unchanged, or exactly twice as two SYNTHETIC split fragments
(the linked fragment first, the residual second) whose positive unsigned
magnitudes sum to the original magnitude, whose signed share values are
the negated magnitudes (disposal polarity), whose residual fragment
retains the pre-split label, and whose linked fragment exactly exhausts
the remaining needed amount (the linked share sum equals the exercise
estimate). -/
theorem c1_source_conservation (ts : List Txn) (hwf : wfInput ts = true)
    (hroles : wfRoles ts = true) (i : Nat) (h : i < ts.length) :
    (∃ r, (buildRollups ts).filter (fun x => x.idx == some i) = [r]
      ∧ r.rowType = "SOURCE"
      ∧ r.transactionShares = (ts.get ⟨i, h⟩).transactionShares
      ∧ r.signedShares = (ts.get ⟨i, h⟩).signedShares
      ∧ sharesAbs r = sharesAbs (ts.get ⟨i, h⟩))
    ∨ (∃ a b rl rr, 0 < a ∧ 0 < b
      ∧ (buildRollups ts).filter (fun x => x.idx == some i) = [rl, rr]
      ∧ rl.rowType = "SYNTHETIC" ∧ rr.rowType = "SYNTHETIC"
      ∧ sharesAbs rl = a ∧ sharesAbs rr = b
      ∧ a + b = sharesAbs (ts.get ⟨i, h⟩)
      ∧ rl.signedShares = some (-a) ∧ rr.signedShares = some (-b)
      ∧ rr.label = (ts.get ⟨i, h⟩).label
      ∧ linkedSumOf ts = (estPairOf ts).1) := by
  rcases hits_characterization ts hwf hroles i h with ⟨-, he⟩ | ⟨-, he⟩ | ⟨-, he⟩ | ⟨-, he⟩
    | ⟨-, he⟩ | ⟨-, a, b, ha, hb, hab, he, hsum⟩
  · exact Or.inl ⟨_, he, rfl, rfl, rfl, rfl⟩
  · exact Or.inl ⟨_, he, rfl, rfl, rfl, rfl⟩
  · exact Or.inl ⟨_, he, rfl, rfl, rfl, rfl⟩
  · exact Or.inl ⟨_, he, rfl, rfl, rfl, rfl⟩
  · left
    refine ⟨_, he, rfl, ?_, ?_, ?_⟩
    · show (upgradeLabel (ts.get ⟨i, h⟩)).transactionShares = (ts.get ⟨i, h⟩).transactionShares
      exact (upgradeLabel_fields _).2.2.1
    · show (upgradeLabel (ts.get ⟨i, h⟩)).signedShares = (ts.get ⟨i, h⟩).signedShares
      exact (upgradeLabel_fields _).2.2.2.1
    · show sharesAbs (upgradeLabel (ts.get ⟨i, h⟩)) = sharesAbs (ts.get ⟨i, h⟩)
      exact sharesAbs_upgradeLabel _
  · right
    refine ⟨a, b, _, _, ha, hb, he, ?_, ?_, ?_, ?_, hab, ?_, ?_, ?_, hsum⟩
    · show (upgradeLabel (splitFragment (ts.get ⟨i, h⟩) a)).rowType = "SYNTHETIC"
      rw [(upgradeLabel_fields _).2.2.2.2.1]
      exact (splitFragment_fields _ _).2.2.2.2.1
    · show (splitFragment (ts.get ⟨i, h⟩) b).rowType = "SYNTHETIC"
      exact (splitFragment_fields _ _).2.2.2.2.1
    · show sharesAbs (upgradeLabel (splitFragment (ts.get ⟨i, h⟩) a)) = a
      rw [sharesAbs_upgradeLabel]
      unfold sharesAbs
      rw [(splitFragment_fields _ _).2.2.1]
      show |a| = a
      exact abs_of_pos ha
    · show sharesAbs (splitFragment (ts.get ⟨i, h⟩) b) = b
      unfold sharesAbs
      rw [(splitFragment_fields _ _).2.2.1]
      show |b| = b
      exact abs_of_pos hb
    · show (upgradeLabel (splitFragment (ts.get ⟨i, h⟩) a)).signedShares = some (-a)
      rw [(upgradeLabel_fields _).2.2.2.1]
      exact (splitFragment_fields _ _).2.2.2.1
    · show (splitFragment (ts.get ⟨i, h⟩) b).signedShares = some (-b)
      exact (splitFragment_fields _ _).2.2.2.1
    · show (splitFragment (ts.get ⟨i, h⟩) b).label = (ts.get ⟨i, h⟩).label
      exact (splitFragment_fields _ _).2.2.2.2.2.1

theorem c1_source_conservation_witness :
    ((buildRollups [c1_wex, c1_wsale]).filter (fun x => x.idx == some 1)).length = 1
    ∨ ((buildRollups [c1_wex, c1_wsale]).filter (fun x => x.idx == some 1)).length = 2 := by
  rcases c1_source_conservation [c1_wex, c1_wsale] (by decide) (by decide) 1 (by decide)
    with ⟨r, he, -, -, -, -⟩ | ⟨a, b, rl, rr, -, -, he, -, -, -, -, -, -, -, -, -⟩
  · left
    rw [he]
    rfl
  · right
    rw [he]
    rfl

/-- C8: the plan-linked label upgrade is idempotent (upgrading an already
upgraded record changes nothing), and on any well-formed filing the rows
produced from input record i keep the input's label unless they carry the
exercise event id: a label change can happen only on a linked piece
(whole record or linked fragment, both holding the exercise event id), it
requires the input to be a 10b5-1 plan sale labelled "10b5-1 Planned
Sale", and it always produces the label "10b5-1 Planned Sale
(Derivative)"; residual and unlinked pieces never change label. -/
theorem c8_label_upgrade (ts : List Txn) (hwf : wfInput ts = true)
    (hroles : wfRoles ts = true) (i : Nat) (h : i < ts.length) :
    (∀ t : Txn, upgradeLabel (upgradeLabel t) = upgradeLabel t)
    ∧ (∀ r ∈ (buildRollups ts).filter (fun x => x.idx == some i),
        r.eventId ≠ some (eventIdExerciseOf ts) → r.label = (ts.get ⟨i, h⟩).label)
    ∧ (∀ r ∈ (buildRollups ts).filter (fun x => x.idx == some i),
        r.label ≠ (ts.get ⟨i, h⟩).label →
          r.eventId = some (eventIdExerciseOf ts)
          ∧ (ts.get ⟨i, h⟩).is10b5_1 = true
          ∧ (ts.get ⟨i, h⟩).label = "10b5-1 Planned Sale"
          ∧ r.label = "10b5-1 Planned Sale (Derivative)") := by
  have hchar := hits_characterization ts hwf hroles i h
  refine ⟨?_, ?_, ?_⟩
  · intro t
    by_cases hc : (t.is10b5_1 && (t.label == "10b5-1 Planned Sale")) = true
    · rw [upgradeLabel_eq_of_cond_true hc]
      refine upgradeLabel_eq_of_cond_false ?_
      show (t.is10b5_1 && (("10b5-1 Planned Sale (Derivative)" : String)
        == "10b5-1 Planned Sale")) = false
      rw [show ((("10b5-1 Planned Sale (Derivative)" : String)
        == "10b5-1 Planned Sale")) = false from rfl]
      exact Bool.and_false _
    · rw [Bool.not_eq_true] at hc
      rw [upgradeLabel_eq_of_cond_false hc, upgradeLabel_eq_of_cond_false hc]
  · intro r hr hne
    rcases hchar with ⟨-, he⟩ | ⟨-, he⟩ | ⟨-, he⟩ | ⟨-, he⟩
      | ⟨-, he⟩ | ⟨-, a, b, ha, hb, hab, he, hsum⟩
    · rw [he] at hr
      rcases List.mem_singleton.mp hr with rfl
      rfl
    · rw [he] at hr
      rcases List.mem_singleton.mp hr with rfl
      rfl
    · rw [he] at hr
      rcases List.mem_singleton.mp hr with rfl
      rfl
    · rw [he] at hr
      rcases List.mem_singleton.mp hr with rfl
      rfl
    · rw [he] at hr
      rcases List.mem_singleton.mp hr with rfl
      exact absurd rfl hne
    · rw [he] at hr
      rcases List.mem_cons.mp hr with rfl | hr2
      · exact absurd rfl hne
      · rcases List.mem_singleton.mp hr2 with rfl
        exact (splitFragment_fields (ts.get ⟨i, h⟩) b).2.2.2.2.2.1
  · intro r hr hlab
    rcases hchar with ⟨-, he⟩ | ⟨-, he⟩ | ⟨-, he⟩ | ⟨-, he⟩
      | ⟨-, he⟩ | ⟨-, a, b, ha, hb, hab, he, hsum⟩
    · rw [he] at hr
      rcases List.mem_singleton.mp hr with rfl
      exact absurd rfl hlab
    · rw [he] at hr
      rcases List.mem_singleton.mp hr with rfl
      exact absurd rfl hlab
    · rw [he] at hr
      rcases List.mem_singleton.mp hr with rfl
      exact absurd rfl hlab
    · rw [he] at hr
      rcases List.mem_singleton.mp hr with rfl
      exact absurd rfl hlab
    · rw [he] at hr
      rcases List.mem_singleton.mp hr with rfl
      by_cases hc : ((ts.get ⟨i, h⟩).is10b5_1
          && ((ts.get ⟨i, h⟩).label == "10b5-1 Planned Sale")) = true
      · have hc2 := hc
        rw [Bool.and_eq_true, beq_iff_eq] at hc2
        refine ⟨rfl, hc2.1, hc2.2, ?_⟩
        show (upgradeLabel (ts.get ⟨i, h⟩)).label = "10b5-1 Planned Sale (Derivative)"
        rw [upgradeLabel_eq_of_cond_true hc]
      · rw [Bool.not_eq_true] at hc
        refine absurd ?_ hlab
        show (upgradeLabel (ts.get ⟨i, h⟩)).label = (ts.get ⟨i, h⟩).label
        rw [upgradeLabel_eq_of_cond_false hc]
    · rw [he] at hr
      rcases List.mem_cons.mp hr with rfl | hr2
      · have hceq : ((splitFragment (ts.get ⟨i, h⟩) a).is10b5_1
            && ((splitFragment (ts.get ⟨i, h⟩) a).label == "10b5-1 Planned Sale"))
            = ((ts.get ⟨i, h⟩).is10b5_1 && ((ts.get ⟨i, h⟩).label == "10b5-1 Planned Sale")) := by
          rw [(splitFragment_fields _ _).2.2.2.2.2.2.2.1, (splitFragment_fields _ _).2.2.2.2.2.1]
        by_cases hc : ((ts.get ⟨i, h⟩).is10b5_1
            && ((ts.get ⟨i, h⟩).label == "10b5-1 Planned Sale")) = true
        · have hc2 := hc
          rw [Bool.and_eq_true, beq_iff_eq] at hc2
          refine ⟨rfl, hc2.1, hc2.2, ?_⟩
          show (upgradeLabel (splitFragment (ts.get ⟨i, h⟩) a)).label
            = "10b5-1 Planned Sale (Derivative)"
          rw [upgradeLabel_eq_of_cond_true (by rw [hceq]; exact hc)]
        · rw [Bool.not_eq_true] at hc
          refine absurd ?_ hlab
          show (upgradeLabel (splitFragment (ts.get ⟨i, h⟩) a)).label = (ts.get ⟨i, h⟩).label
          rw [upgradeLabel_eq_of_cond_false (by rw [hceq]; exact hc)]
          exact (splitFragment_fields _ _).2.2.2.2.2.1
      · rcases List.mem_singleton.mp hr2 with rfl
        exact absurd ((splitFragment_fields (ts.get ⟨i, h⟩) b).2.2.2.2.2.1) hlab

theorem c8_label_upgrade_witness :
    upgradeLabel (upgradeLabel c8_wsale) = upgradeLabel c8_wsale :=
  (c8_label_upgrade [c8_wex, c8_wsale] (by decide) (by decide) 1 (by decide)).1 c8_wsale

end Insider
